import Mathlib

/-!
Verification of the log ingestion, normalization and filtering engine of
`LunchTimeCode/logs` (`src/main.rs`) against its specification.

The Rust code is shallowly embedded:

* `chrono` naive date-times are modelled as `Int` seconds since the epoch
  1970-01-01 00:00:00 (sub-second precision is elided: the engine formats and
  parses timestamps at whole-second granularity throughout).  Conversion
  between seconds and civil (proleptic Gregorian) fields uses the standard
  civil-from-days / days-from-civil algorithms, whose correctness is proved
  below; ordering of `NaiveDateTime` values coincides with `Int` ordering.
* `String` stays `String`; the regex patterns of
  `extract_timestamp_from_log` are embedded as explicit scanners with the
  regex crate's leftmost-match semantics (all quantified subterms of these
  particular patterns are over disjoint character classes, so greedy
  no-backtracking scanning is equivalent); `chrono` format strings are
  embedded as explicit field-by-field input readers feeding a
  `Parsed`-style completion step, mirroring `chrono`'s flexible numeric
  widths, whitespace items and required/defaulted fields.
* Only ASCII case-folding is modelled (the log-level and search claims are
  ASCII); `\d`, `\s` are modelled as ASCII classes; `:60` leap-second input
  is rejected by the embedded completion (the engine never produces one).
* `LogsApp` keeps exactly the fields the engine reads; UI-only fields are
  dropped.  Calls to `Local::now()` become an explicit `now : Int`
  parameter.
-/

/-! ## Calendar model (chrono's proleptic Gregorian calendar) -/

/-- Leap-year test of the proleptic Gregorian calendar (as `chrono` uses:
divisible by 4 and (not by 100 or by 400)). -/
def isLeap (y : Int) : Bool :=
  decide (y % 4 = 0 ∧ (y % 100 ≠ 0 ∨ y % 400 = 0))

/-- Length of month `m` (1–12) of year `y`. -/
def daysInMonth (y : Int) (m : Nat) : Nat :=
  match m with
  | 1 => 31 | 2 => if isLeap y then 29 else 28 | 3 => 31 | 4 => 30
  | 5 => 31 | 6 => 30 | 7 => 31 | 8 => 31 | 9 => 30 | 10 => 31
  | 11 => 30 | 12 => 31 | _ => 0

/-- `chrono`'s `NaiveDate` minimum representable year (`i32::MIN >> 13`). -/
def minYear : Int := -262144

/-- `chrono`'s `NaiveDate` maximum representable year (`i32::MAX >> 13`). -/
def maxYear : Int := 262143

/-- First day (day-of-era) of year-of-era `y` (0–399) in the 400-year
Gregorian era starting on a 1 March: `365·y` plus the leap days passed. -/
def soyN (y : Nat) : Nat := 365 * y + y / 4 - y / 100

/-- Year-of-era of a day-of-era `doe` (0–146096): the correction-term
formula of the standard civil-from-days algorithm. -/
def yoeFN (doe : Nat) : Nat :=
  (doe - doe / 1460 + doe / 36524 - doe / 146096) / 365

/-- Days since 1970-01-01 of the civil date `y-m-d` (standard
days-from-civil algorithm over the March-based shifted year). -/
def daysFromCivil (y : Int) (m d : Nat) : Int :=
  let y' : Int := if m ≤ 2 then y - 1 else y
  let era : Int := y' / 400
  let yoe : Nat := (y' - era * 400).toNat
  let mp : Nat := if m ≤ 2 then m + 9 else m - 3
  let doy : Nat := (153 * mp + 2) / 5 + d - 1
  era * 146097 + ((soyN yoe + doy : Nat) : Int) - 719468

/-- Shifted-month index of a day of the March-based year (0 = March). -/
def mpOf (doy : Nat) : Nat := (5 * doy + 2) / 153

/-- Day of month (1-based) of a day of the March-based year. -/
def dayOf (doy : Nat) : Nat := doy + 1 - (153 * mpOf doy + 2) / 5

/-- Civil month (1–12) of a day of the March-based year. -/
def monthOf (doy : Nat) : Nat :=
  if mpOf doy < 10 then mpOf doy + 3 else mpOf doy - 9

/-- Civil date `(y, m, d)` of a count of days since 1970-01-01 (standard
civil-from-days algorithm). -/
def civilFromDays (z : Int) : Int × Nat × Nat :=
  let era : Int := (z + 719468) / 146097
  let doe : Nat := (z + 719468 - era * 146097).toNat
  let yoe : Nat := yoeFN doe
  let doy : Nat := doe - soyN yoe
  let m : Nat := monthOf doy
  (if m ≤ 2 then era * 400 + (yoe : Int) + 1 else era * 400 + (yoe : Int), m, dayOf doy)

/-- Seconds since the epoch of the civil datetime `y-m-d h:mi:s`. -/
def mkDT (y : Int) (m d h mi s : Nat) : Int :=
  daysFromCivil y m d * 86400 + ((h * 3600 + mi * 60 + s : Nat) : Int)

/-- Civil fields `(y, m, d, h, mi, s)` of a count of seconds since the
epoch. -/
def civilFromSecs (t : Int) : Int × Nat × Nat × Nat × Nat × Nat :=
  let days : Int := t / 86400
  let sod : Nat := (t % 86400).toNat
  let c := civilFromDays days
  (c.1, c.2.1, c.2.2, sod / 3600, sod % 3600 / 60, sod % 60)

/-- `chrono` `NaiveDate::from_ymd_opt` validity test. -/
def validYmd (y : Int) (m d : Nat) : Bool :=
  decide (minYear ≤ y) && decide (y ≤ maxYear) && decide (1 ≤ m) &&
  decide (m ≤ 12) && decide (1 ≤ d) && decide (d ≤ daysInMonth y m)

/-- `chrono` `NaiveDate::from_ymd_opt`, as days since the epoch. -/
def fromYmdOpt (y : Int) (m d : Nat) : Option Int :=
  if validYmd y m d then some (daysFromCivil y m d) else none

/-- `chrono` `NaiveTime::from_hms_opt`, as seconds of day (leap seconds are
not representable in the seconds model; the engine never constructs one). -/
def fromHmsOpt (h mi s : Nat) : Option Nat :=
  if h ≤ 23 && mi ≤ 59 && s ≤ 59 then some (h * 3600 + mi * 60 + s) else none

/-! ## Correctness of the civil calendar algorithms

The year-of-era formula `yoeFN` is verified at the 400 year boundaries of
one era by `decide`, shown monotone by a step lemma, and the per-day facts
follow; month/day extraction from day-of-year is checked over its 366-value
domain by `decide`. -/

/-- Leapness of a year given only its residue class information mod 400. -/
def leapMod400 (r : Nat) : Bool :=
  r % 4 == 0 && (r % 100 != 0 || r % 400 == 0)

/-- Boundary check for year-of-era `y`: the formula is exact at the first
day of year `y` and (for `y ≤ 398`) at the last day of year `y`. -/
def yoeBoundaryOK (y : Nat) : Bool :=
  yoeFN (soyN y) == y && (y == 399 || yoeFN (soyN (y + 1) - 1) == y)

/-- Balanced range check with structural fuel: if it returns `true` then
`f (lo+k)` holds for all `k < n` (fuel ≥ log₂ n suffices). -/
def allB (f : Nat → Bool) : Nat → Nat → Nat → Bool
  | 0, _, 0 => true
  | 0, lo, 1 => f lo
  | 0, _, _ + 2 => false
  | _ + 1, _, 0 => true
  | _ + 1, lo, 1 => f lo
  | fuel + 1, lo, n + 2 =>
    allB f fuel lo ((n + 2) / 2) && allB f fuel (lo + (n + 2) / 2) (n + 2 - (n + 2) / 2)

theorem allB_sound (f : Nat → Bool) :
    ∀ fuel n lo, allB f fuel lo n = true → ∀ k, k < n → f (lo + k) = true := by
  intro fuel
  induction fuel with
  | zero =>
    intro n lo h k hk
    match n, hk with
    | 1, _ =>
      have hk0 : k = 0 := by omega
      subst hk0
      simpa [allB] using h
    | n + 2, _ => simp [allB] at h
  | succ fuel ih =>
    intro n lo h k hk
    match n, hk with
    | 1, _ =>
      have hk0 : k = 0 := by omega
      subst hk0
      simpa [allB] using h
    | n + 2, _ =>
      rw [allB, Bool.and_eq_true] at h
      by_cases hks : k < (n + 2) / 2
      · exact ih ((n + 2) / 2) lo h.1 k hks
      · have h2 := ih ((n + 2) - (n + 2) / 2) (lo + (n + 2) / 2) h.2 (k - (n + 2) / 2) (by omega)
        have heq : lo + (n + 2) / 2 + (k - (n + 2) / 2) = lo + k := by omega
        rwa [heq] at h2

theorem yoe_boundaries_all : allB yoeBoundaryOK 10 0 400 = true := by decide

theorem yoe_boundary (y : Nat) (h : y < 400) : yoeBoundaryOK y = true := by
  have := allB_sound yoeBoundaryOK 10 400 0 yoe_boundaries_all y h
  simpa using this

theorem yoeFN_soy (y : Nat) (h : y < 400) : yoeFN (soyN y) = y := by
  have hb := yoe_boundary y h
  rw [yoeBoundaryOK, Bool.and_eq_true, beq_iff_eq] at hb
  exact hb.1

theorem yoeFN_eoy (y : Nat) (h : y ≤ 398) : yoeFN (soyN (y + 1) - 1) = y := by
  have hb := yoe_boundary y (by omega)
  simp only [yoeBoundaryOK, Bool.and_eq_true, Bool.or_eq_true, beq_iff_eq] at hb
  rcases hb.2 with h399 | he
  · omega
  · exact he

theorem yoeFN_last : yoeFN 146096 = 399 := by decide

/-- One-step monotonicity of the year-of-era formula. -/
theorem yoeFN_step (doe : Nat) (h : doe ≤ 146095) : yoeFN doe ≤ yoeFN (doe + 1) := by
  unfold yoeFN
  omega

/-- Monotonicity of the year-of-era formula on one era. -/
theorem yoeFN_mono (a b : Nat) (hab : a ≤ b) (hb : b ≤ 146096) :
    yoeFN a ≤ yoeFN b := by
  induction b with
  | zero =>
    have ha : a = 0 := by omega
    subst ha
    exact le_refl _
  | succ n ih =>
    rcases Nat.lt_or_ge a (n + 1) with hlt | hge
    · exact le_trans (ih (by omega) (by omega)) (yoeFN_step n (by omega))
    · have ha : a = n + 1 := by omega
      subst ha
      exact le_refl _

theorem soyN_le_of_le (y : Nat) (h : y ≤ 399) : soyN y ≤ 145731 := by
  unfold soyN
  omega

/-- The year-of-era formula never places a day before the start of its
assigned year. -/
theorem yoeFN_lower (doe : Nat) (h : doe ≤ 146096) : soyN (yoeFN doe) ≤ doe := by
  have h0 : soyN 0 = 0 := by decide
  have hub : yoeFN doe ≤ 399 := by
    have hm := yoeFN_mono doe 146096 h (by omega)
    rwa [yoeFN_last] at hm
  by_contra hc
  push_neg at hc
  have hy1 : 1 ≤ yoeFN doe := by
    rcases Nat.eq_zero_or_pos (yoeFN doe) with hz | hz
    · rw [hz, h0] at hc
      omega
    · exact hz
  have hsb : soyN (yoeFN doe) ≤ 145731 := soyN_le_of_le _ hub
  have heoy := yoeFN_eoy (yoeFN doe - 1) (by omega)
  have hyy : yoeFN doe - 1 + 1 = yoeFN doe := by omega
  rw [hyy] at heoy
  have hmono := yoeFN_mono doe (soyN (yoeFN doe) - 1) (by omega) (by omega)
  rw [heoy] at hmono
  omega

/-- The year-of-era formula never places a day past the end of its
assigned year (years 0–398; year 399 runs to the end of the era). -/
theorem yoeFN_upper (doe : Nat) (h : doe ≤ 146096) (h399 : yoeFN doe ≤ 398) :
    doe < soyN (yoeFN doe + 1) := by
  by_contra hc
  push_neg at hc
  have hs : soyN (yoeFN doe + 1) ≤ 145731 := soyN_le_of_le _ (by omega)
  have hmono := yoeFN_mono (soyN (yoeFN doe + 1)) doe hc h
  rw [yoeFN_soy (yoeFN doe + 1) (by omega)] at hmono
  omega

/-- A 366-day year of the March-based calendar (years 0–398 of an era) is
one whose following civil year is divisible by 4 and not by 100. -/
theorem gap_leap (a : Nat) (hgap : soyN a + 366 ≤ soyN (a + 1)) :
    (a + 1) % 4 = 0 ∧ (a + 1) % 100 ≠ 0 := by
  unfold soyN at hgap
  have s1 : a / 4 ≤ (a + 1) / 4 ∧ (a + 1) / 4 ≤ a / 4 + 1 := by omega
  have s2 : a / 100 ≤ (a + 1) / 100 ∧ (a + 1) / 100 ≤ a / 100 + 1 := by omega
  have h4 : (a + 1) / 4 = a / 4 + 1 := by omega
  have h100 : (a + 1) / 100 = a / 100 := by omega
  exact ⟨by omega, by omega⟩

/-- Partition of an era by the year-of-era formula: every day-of-era lies
in the year the formula assigns it, the day-of-year is at most 365, and a
day-of-year of 365 (a 29 February) only occurs in a leap year. -/
theorem yoe_partition (doe : Nat) (h : doe ≤ 146096) :
    soyN (yoeFN doe) ≤ doe ∧ yoeFN doe ≤ 399 ∧
    doe - soyN (yoeFN doe) ≤ 365 ∧
    (doe - soyN (yoeFN doe) = 365 → leapMod400 (yoeFN doe + 1) = true) := by
  have hub : yoeFN doe ≤ 399 := by
    have hm := yoeFN_mono doe 146096 h (by omega)
    rwa [yoeFN_last] at hm
  have hlow := yoeFN_lower doe h
  refine ⟨hlow, hub, ?_, ?_⟩
  · rcases Nat.lt_or_ge (yoeFN doe) 399 with hy | hy
    · have hup := yoeFN_upper doe h (by omega)
      have hgap : soyN (yoeFN doe + 1) ≤ soyN (yoeFN doe) + 366 := by
        unfold soyN
        omega
      omega
    · have h399 : soyN (yoeFN doe) = 145731 := by
        have hq : yoeFN doe = 399 := by omega
        rw [hq]
        decide
      omega
  · intro h365
    rcases Nat.lt_or_ge (yoeFN doe) 399 with hy | hy
    · have hup := yoeFN_upper doe h (by omega)
      have hgap : soyN (yoeFN doe) + 366 ≤ soyN (yoeFN doe + 1) := by omega
      have hlp := gap_leap (yoeFN doe) hgap
      have hlm : leapMod400 (yoeFN doe + 1) = true ↔
          ((yoeFN doe + 1) % 4 = 0 ∧ ((yoeFN doe + 1) % 100 ≠ 0 ∨ (yoeFN doe + 1) % 400 = 0)) := by
        simp [leapMod400]
      rw [hlm]
      exact ⟨hlp.1, Or.inl hlp.2⟩
    · have h399 : yoeFN doe = 399 := by omega
      rw [h399]
      decide

/-- Per-day check of the month/day extraction from a day of the
March-based year (domain 0–365, checked exhaustively). -/
def monthDayOK (doy : Nat) : Bool :=
  decide (1 ≤ monthOf doy) && decide (monthOf doy ≤ 12) &&
  decide (1 ≤ dayOf doy) && decide (dayOf doy ≤ daysInMonth 0 (monthOf doy)) &&
  decide (doy ≠ 365 → dayOf doy ≤ daysInMonth 1 (monthOf doy)) &&
  decide (306 ≤ doy ↔ monthOf doy ≤ 2)

theorem monthday_all : allB monthDayOK 10 0 366 = true := by decide

theorem monthday_facts (doy : Nat) (h : doy ≤ 365) :
    1 ≤ monthOf doy ∧ monthOf doy ≤ 12 ∧
    1 ≤ dayOf doy ∧ dayOf doy ≤ daysInMonth 0 (monthOf doy) ∧
    (doy ≠ 365 → dayOf doy ≤ daysInMonth 1 (monthOf doy)) ∧
    (306 ≤ doy ↔ monthOf doy ≤ 2) := by
  have hb := allB_sound monthDayOK 10 366 0 monthday_all doy (by omega)
  rw [Nat.zero_add] at hb
  simp only [monthDayOK, Bool.and_eq_true, decide_eq_true_eq] at hb
  tauto

theorem daysInMonth_nonFeb (y y' : Int) (m : Nat) (hm : m ≠ 2) :
    daysInMonth y m = daysInMonth y' m := by
  unfold daysInMonth
  rcases m with _ | _ | _ | _ | _ | _ | _ | _ | _ | _ | _ | _ | _ | m
  all_goals first
    | rfl
    | exact absurd rfl hm

theorem daysInMonth_feb_ge (y : Int) : 28 ≤ daysInMonth y 2 := by
  simp only [daysInMonth]
  split <;> omega

theorem daysInMonth_feb_leap (y : Int) (h : isLeap y = true) : daysInMonth y 2 = 29 := by
  simp only [daysInMonth, h]
  simp

/-- Leapness only depends on the year's residue class mod 400. -/
theorem isLeap_shift (e : Int) (r : Nat) : isLeap (e * 400 + (r : Int)) = leapMod400 r := by
  rw [Bool.eq_iff_iff]
  simp only [isLeap, leapMod400, decide_eq_true_eq, Bool.and_eq_true, Bool.or_eq_true,
    beq_iff_eq, bne_iff_ne]
  omega

theorem monthOf_365 : monthOf 365 = 2 := by decide

/-- The civil-from-days algorithm always yields a valid calendar date. -/
theorem civilFromDays_valid (z : Int) :
    1 ≤ (civilFromDays z).2.1 ∧ (civilFromDays z).2.1 ≤ 12 ∧
    1 ≤ (civilFromDays z).2.2 ∧
    (civilFromDays z).2.2 ≤ daysInMonth (civilFromDays z).1 (civilFromDays z).2.1 := by
  simp only [civilFromDays]
  set e : Int := (z + 719468) / 146097 with he
  set dN : Nat := (z + 719468 - e * 146097).toNat with hdN
  have hdoe : dN ≤ 146096 := by
    rw [hdN, he]
    omega
  set doy : Nat := dN - soyN (yoeFN dN) with hdoy
  obtain ⟨hp1, hp2, hp3, hp4⟩ := yoe_partition dN hdoe
  rw [← hdoy] at hp3 hp4
  obtain ⟨hm1, hm2, hd1, hd0, hd365, hiff⟩ := monthday_facts doy hp3
  refine ⟨hm1, hm2, hd1, ?_⟩
  by_cases hFeb : monthOf doy = 2
  · rcases Nat.lt_or_ge (dayOf doy) 29 with hle | hge
    · calc dayOf doy ≤ 28 := by omega
        _ ≤ daysInMonth _ 2 := daysInMonth_feb_ge _
        _ = daysInMonth _ (monthOf doy) := by rw [hFeb]
    · have h29 : dayOf doy = 29 := by
        have := hd0
        rw [hFeb] at this
        have h02 : daysInMonth 0 2 = 29 := by decide
        omega
      have hdoy365 : doy = 365 := by
        by_contra hne
        have := hd365 hne
        rw [hFeb] at this
        have h12 : daysInMonth 1 2 = 28 := by decide
        omega
      have hleap := hp4 (by omega)
      have hif : monthOf doy ≤ 2 := by omega
      rw [if_pos hif, hFeb]
      have hy1 : e * 400 + (yoeFN dN : Int) + 1 = e * 400 + ((yoeFN dN + 1 : Nat) : Int) := by
        push_cast
        ring
      rw [hy1]
      have hl : isLeap (e * 400 + ((yoeFN dN + 1 : Nat) : Int)) = true := by
        rw [isLeap_shift]
        exact hleap
      rw [daysInMonth_feb_leap _ hl]
      omega
  · have hnd : doy ≠ 365 := by
      intro hx
      rw [hx, monthOf_365] at hFeb
      exact hFeb rfl
    have hdm := hd365 hnd
    calc dayOf doy ≤ daysInMonth 1 (monthOf doy) := hdm
      _ = daysInMonth (if monthOf doy ≤ 2 then e * 400 + (yoeFN dN : Int) + 1
            else e * 400 + (yoeFN dN : Int)) (monthOf doy) := daysInMonth_nonFeb _ _ _ hFeb

/-- For day counts between 0000-01-01 and 9999-12-31 the civil year lies
in 0–9999. -/
theorem civilFromDays_year (z : Int) (h1 : -719528 ≤ z) (h2 : z ≤ 2932896) :
    0 ≤ (civilFromDays z).1 ∧ (civilFromDays z).1 ≤ 9999 := by
  simp only [civilFromDays]
  set e : Int := (z + 719468) / 146097 with he
  set dN : Nat := (z + 719468 - e * 146097).toNat with hdN
  have hdoe : dN ≤ 146096 := by
    rw [hdN, he]
    omega
  have hcast : (dN : Int) = z + 719468 - e * 146097 := by
    rw [hdN, he]
    omega
  have hera : -1 ≤ e ∧ e ≤ 24 := by
    rw [he]
    omega
  set doy : Nat := dN - soyN (yoeFN dN) with hdoy
  obtain ⟨hp1, hp2, hp3, _⟩ := yoe_partition dN hdoe
  rw [← hdoy] at hp3
  obtain ⟨_, _, _, _, _, hiff⟩ := monthday_facts doy hp3
  have hs399 : soyN 399 = 145731 := by decide
  rcases Nat.lt_or_ge (yoeFN dN) 399 with hy | hy
  · have hup := yoeFN_upper dN hdoe (by omega)
    have hsup : soyN (yoeFN dN + 1) ≤ 145731 := soyN_le_of_le _ (by omega)
    by_cases hif : monthOf doy ≤ 2
    · rw [if_pos hif]
      constructor <;> omega
    · rw [if_neg hif]
      constructor <;> omega
  · have hyq : yoeFN dN = 399 := by omega
    rw [hyq, hs399] at hdoy hp1
    by_cases hif : monthOf doy ≤ 2
    · have h306 : 306 ≤ doy := hiff.mpr hif
      rw [if_pos hif, hyq]
      constructor <;> omega
    · have h306 : doy ≤ 305 := by
        rcases Nat.lt_or_ge doy 306 with hq | hq
        · omega
        · exact absurd (hiff.mp hq) hif
      rw [if_neg hif, hyq]
      constructor <;> omega

/-- Bounds of the days-from-civil map on valid dates of years 0–9999. -/
theorem daysFromCivil_bounds (y : Int) (m d : Nat) (hy0 : 0 ≤ y) (hy : y ≤ 9999)
    (hm1 : 1 ≤ m) (hm2 : m ≤ 12) (hd1 : 1 ≤ d) (hd2 : d ≤ 31) :
    -719528 ≤ daysFromCivil y m d ∧ daysFromCivil y m d ≤ 2932896 := by
  simp only [daysFromCivil, soyN]
  by_cases hif : m ≤ 2
  · simp only [if_pos hif]
    omega
  · simp only [if_neg hif]
    omega

/-! ## Strings: case folding, substring search, trimming, replacement

Only ASCII behaviour is modelled (`to_lowercase`, `char::is_whitespace`,
regex `\d`/`\s`/`[A-Za-z]`): every string the claims quantify over or
evaluate is ASCII. -/

/-- ASCII whitespace (space, tab, newline, carriage return, vertical tab,
form feed), the ASCII part of Rust's `char::is_whitespace`. -/
def isWsC (c : Char) : Bool :=
  c.toNat = 32 || c.toNat = 9 || c.toNat = 10 || c.toNat = 13 ||
  c.toNat = 11 || c.toNat = 12

/-- Rust `str::to_lowercase` (ASCII part). -/
def lowerStr (s : String) : String := ⟨s.toList.map Char.toLower⟩

/-- `leadsWith needle hay`: `hay` starts with `needle`. -/
def leadsWith : List Char → List Char → Bool
  | [], _ => true
  | _ :: _, [] => false
  | a :: as, b :: bs => a == b && leadsWith as bs

/-- `containsSub needle hay`: `needle` occurs as a contiguous substring. -/
def containsSub (sub : List Char) : List Char → Bool
  | [] => sub.isEmpty
  | c :: t => leadsWith sub (c :: t) || containsSub sub t

/-- Rust `str::contains` on string slices. -/
def strContains (hay needle : String) : Bool := containsSub needle.toList hay.toList

/-- Rust `str::trim` (ASCII whitespace from both ends). -/
def trimChars (cs : List Char) : List Char :=
  ((cs.dropWhile isWsC).reverse.dropWhile isWsC).reverse

/-- Rust `str::replace (sub, "")`: delete all non-overlapping occurrences
left to right.  Structural fuel (the haystack length) keeps it executable. -/
def removeAllAux (sub : List Char) : Nat → List Char → List Char
  | 0, _ => []
  | _ + 1, [] => []
  | fuel + 1, c :: t =>
    if sub ≠ [] ∧ leadsWith sub (c :: t) then
      removeAllAux sub fuel (List.drop (sub.length - 1) t)
    else
      c :: removeAllAux sub fuel t

def removeAll (hay sub : List Char) : List Char := removeAllAux sub hay.length hay

/-! ## Canonical formatting (`dt.format("%Y-%m-%d %H:%M:%S")`) -/

/-- Two-digit zero-padded field (all fields the engine formats are < 100). -/
def pad2 (n : Nat) : List Char := [Nat.digitChar (n / 10), Nat.digitChar (n % 10)]

/-- Four-digit zero-padded year for 0–9999; wider or negative years render
with all their digits (and a sign), as `chrono`'s `%Y` does. -/
def pad4 (y : Int) : List Char :=
  if 0 ≤ y ∧ y < 10000 then
    let n := y.toNat
    [Nat.digitChar (n / 1000), Nat.digitChar (n / 100 % 10),
     Nat.digitChar (n / 10 % 10), Nat.digitChar (n % 10)]
  else if y < 0 then '-' :: Nat.toDigits 10 (-y).toNat
  else Nat.toDigits 10 y.toNat

/-- `dt.format("%Y-%m-%d %H:%M:%S").to_string()`. -/
def formatCanonical (t : Int) : String :=
  let c := civilFromSecs t
  ⟨pad4 c.1 ++ '-' :: pad2 c.2.1 ++ '-' :: pad2 c.2.2.1 ++
   ' ' :: pad2 c.2.2.2.1 ++ ':' :: pad2 c.2.2.2.2.1 ++ ':' :: pad2 c.2.2.2.2.2⟩

/-! ## chrono-style field readers

`chrono` numeric items skip leading whitespace and read 1 up to
field-width digits greedily; a `%Y` with an explicit sign reads unlimited
digits.  A whitespace item in a format string matches any amount of
whitespace.  `parse_from_str` demands the whole input be consumed.
Parsed fields go through a `Parsed`-completion step: a date needs year,
month and day (validated), a time needs hour and minute, the second
defaults to 0. -/

/-- ASCII digit (the regex `\d` and chrono's digit scanner). -/
def isDigitC (c : Char) : Bool := 48 ≤ c.toNat && c.toNat ≤ 57

def grabDigitsAux : Nat → Nat → List Char → Nat × List Char
  | 0, acc, cs => (acc, cs)
  | _ + 1, acc, [] => (acc, [])
  | f + 1, acc, c :: cs =>
    if isDigitC c then grabDigitsAux f (acc * 10 + (c.toNat - 48)) cs else (acc, c :: cs)

/-- Read 1 up to `w` digits greedily. -/
def numFieldCore (w : Nat) (cs : List Char) : Option (Nat × List Char) :=
  match cs with
  | [] => none
  | c :: cs' =>
    if isDigitC c then some (grabDigitsAux (w - 1) (c.toNat - 48) cs') else none

def skipWs (cs : List Char) : List Char := cs.dropWhile isWsC

/-- A numeric item of width `w`: skip whitespace, then 1–`w` digits. -/
def numField (w : Nat) (cs : List Char) : Option (Nat × List Char) :=
  numFieldCore w (skipWs cs)

/-- The `%Y` item: optional sign (then unlimited digits), else width 4. -/
def numFieldYear (cs : List Char) : Option (Int × List Char) :=
  match skipWs cs with
  | [] => none
  | c :: r =>
    if c == '-' then (numFieldCore (r.length + 1) r).map fun p => (-(p.1 : Int), p.2)
    else if c == '+' then (numFieldCore (r.length + 1) r).map fun p => ((p.1 : Int), p.2)
    else (numFieldCore 4 (c :: r)).map fun p => ((p.1 : Int), p.2)

/-- A literal character of a format string. -/
def expectChar (c : Char) (cs : List Char) : Option (List Char) :=
  match cs with
  | x :: r => if x == c then some r else none
  | [] => none

/-- The fields `chrono`'s `Parsed` accumulates while matching a format. -/
structure ParsedF where
  year : Option Int
  month : Option Nat
  day : Option Nat
  hour : Option Nat
  minute : Option Nat
  second : Option Nat

/-- `Parsed::to_naive_date ∘ to_naive_time` composition used by
`NaiveDateTime::parse_from_str`: year, month, day, hour and minute are
required, the second defaults to 0, and all fields are validated. -/
def toNaiveDateTime (p : ParsedF) : Option Int := do
  let y ← p.year
  let mo ← p.month
  let d ← p.day
  let h ← p.hour
  let mi ← p.minute
  let s := p.second.getD 0
  if validYmd y mo d = true ∧ h ≤ 23 ∧ mi ≤ 59 ∧ s ≤ 59 then
    some (mkDT y mo d h mi s)
  else none

/-- `Parsed::to_naive_date`, used by `NaiveDate::parse_from_str`. -/
def toNaiveDate (p : ParsedF) : Option Int := do
  let y ← p.year
  let mo ← p.month
  let d ← p.day
  if validYmd y mo d = true then some (daysFromCivil y mo d) else none

/-- Read `%Y-%m-%d`. -/
def readYmd (cs : List Char) : Option ((Int × Nat × Nat) × List Char) := do
  let (y, r1) ← numFieldYear cs
  let r2 ← expectChar '-' r1
  let (mo, r3) ← numField 2 r2
  let r4 ← expectChar '-' r3
  let (d, r5) ← numField 2 r4
  pure ((y, mo, d), r5)

/-- Read `%H:%M:%S`. -/
def readHms (cs : List Char) : Option ((Nat × Nat × Nat) × List Char) := do
  let (h, r1) ← numField 2 cs
  let r2 ← expectChar ':' r1
  let (mi, r3) ← numField 2 r2
  let r4 ← expectChar ':' r3
  let (s, r5) ← numField 2 r4
  pure ((h, mi, s), r5)

/-- `NaiveDateTime::parse_from_str(_, "%Y-%m-%d %H:%M:%S")`. -/
def fmtFullDT (cs : List Char) : Option Int := do
  let (ymd, r1) ← readYmd cs
  let (hms, r2) ← readHms (skipWs r1)
  if r2.isEmpty then
    toNaiveDateTime ⟨some ymd.1, some ymd.2.1, some ymd.2.2,
      some hms.1, some hms.2.1, some hms.2.2⟩
  else none

/-- `NaiveDateTime::parse_from_str(_, "%Y-%m-%d %H:%M")` (second → 0). -/
def fmtYmdHM (cs : List Char) : Option Int := do
  let (ymd, r1) ← readYmd cs
  let (h, r2) ← numField 2 (skipWs r1)
  let r3 ← expectChar ':' r2
  let (mi, r4) ← numField 2 r3
  if r4.isEmpty then
    toNaiveDateTime ⟨some ymd.1, some ymd.2.1, some ymd.2.2, some h, some mi, none⟩
  else none

/-- `NaiveDateTime::parse_from_str(_, "%Y-%m-%d %H")`: the format sets no
minute and `Parsed::to_naive_time` requires one, so completion always
fails — this branch of `parse_time_input` can never succeed. -/
def fmtYmdH (cs : List Char) : Option Int := do
  let (ymd, r1) ← readYmd cs
  let (h, r2) ← numField 2 (skipWs r1)
  if r2.isEmpty then
    toNaiveDateTime ⟨some ymd.1, some ymd.2.1, some ymd.2.2, some h, none, none⟩
  else none

/-- `NaiveDate::parse_from_str(_, "%Y-%m-%d")` then `.and_time(00:00:00)`. -/
def fmtYmd (cs : List Char) : Option Int := do
  let (ymd, r1) ← readYmd cs
  if r1.isEmpty then
    (toNaiveDate ⟨some ymd.1, some ymd.2.1, some ymd.2.2, none, none, none⟩).map
      (· * 86400)
  else none

/-- `LogsApp::parse_time_input`: trim, reject empty, then try the four
formats in order (full datetime, date+h:m, date+h, bare date). -/
def parse_time_input (input : String) : Option Int :=
  let t := trimChars input.toList
  if t.isEmpty then none
  else
    match fmtFullDT t with
    | some dt => some dt
    | none =>
      match fmtYmdHM t with
      | some dt => some dt
      | none =>
        match fmtYmdH t with
        | some dt => some dt
        | none => fmtYmd t

/-! ## The regex patterns of `extract_timestamp_from_log`

Each regex of the cascade is embedded as a scanner.  `Regex::captures`
returns the leftmost match; within these patterns every quantified piece
(`\s+`, `\d{1,2}`, the optional `(?:\.\d{3})?` and `Z?` suffixes) is
followed by a disjoint character class or the end of the pattern, so
greedy scanning without backtracking computes exactly the regex crate's
leftmost-first match. -/

/-- A scanner: on success, the matched characters and the rest. -/
def Matcher : Type := List Char → Option (List Char × List Char)

def mOk : Matcher := fun cs => some ([], cs)

def mChar (c : Char) : Matcher := fun cs =>
  match cs with
  | x :: r => if x == c then some ([x], r) else none
  | [] => none

def mClass (p : Char → Bool) : Matcher := fun cs =>
  match cs with
  | x :: r => if p x then some ([x], r) else none
  | [] => none

def mSeq (a b : Matcher) : Matcher := fun cs =>
  match a cs with
  | some (m1, r1) =>
    match b r1 with
    | some (m2, r2) => some (m1 ++ m2, r2)
    | none => none
  | none => none

def mCat (ms : List Matcher) : Matcher := ms.foldr mSeq mOk

def mRep (m : Matcher) : Nat → Matcher
  | 0 => mOk
  | n + 1 => mSeq m (mRep m n)

/-- Greedy optional (`X?`). -/
def mOpt (m : Matcher) : Matcher := fun cs =>
  match m cs with
  | some r => some r
  | none => some ([], cs)

def takeManyP (p : Char → Bool) : List Char → List Char × List Char
  | [] => ([], [])
  | c :: t =>
    if p c then
      let r := takeManyP p t
      (c :: r.1, r.2)
    else ([], c :: t)

/-- Greedy one-or-more of a character class (`\s+`). -/
def mMany1 (p : Char → Bool) : Matcher := fun cs =>
  match takeManyP p cs with
  | ([], _) => none
  | (a, b) => some (a, b)

def mDigit : Matcher := mClass isDigitC

def mDigits (n : Nat) : Matcher := mRep mDigit n

/-- `\d{1,2}`: two digits if available, else one. -/
def m1or2Digits : Matcher := fun cs =>
  match mDigits 2 cs with
  | some r => some r
  | none => mDigit cs

def isAlphaAscii (c : Char) : Bool :=
  ('A' ≤ c && c ≤ 'Z') || ('a' ≤ c && c ≤ 'z')

/-- `(\d{4}-\d{2}-\d{2}T\d{2}:\d{2}:\d{2}(?:\.\d{3})?Z?)` -/
def patIso : Matcher := mCat
  [mDigits 4, mChar '-', mDigits 2, mChar '-', mDigits 2, mChar 'T',
   mDigits 2, mChar ':', mDigits 2, mChar ':', mDigits 2,
   mOpt (mCat [mChar '.', mDigits 3]), mOpt (mChar 'Z')]

/-- `(\d{4}-\d{2}-\d{2}\s+\d{2}:\d{2}:\d{2}(?:\.\d{3})?)` -/
def patStdMs : Matcher := mCat
  [mDigits 4, mChar '-', mDigits 2, mChar '-', mDigits 2, mMany1 isWsC,
   mDigits 2, mChar ':', mDigits 2, mChar ':', mDigits 2,
   mOpt (mCat [mChar '.', mDigits 3])]

/-- `(\d{4}-\d{2}-\d{2}\s+\d{2}:\d{2}:\d{2})` -/
def patStd : Matcher := mCat
  [mDigits 4, mChar '-', mDigits 2, mChar '-', mDigits 2, mMany1 isWsC,
   mDigits 2, mChar ':', mDigits 2, mChar ':', mDigits 2]

/-- `([A-Za-z]{3}\s+\d{1,2}\s+\d{2}:\d{2}:\d{2})` -/
def patSyslog : Matcher := mCat
  [mClass isAlphaAscii, mClass isAlphaAscii, mClass isAlphaAscii,
   mMany1 isWsC, m1or2Digits, mMany1 isWsC,
   mDigits 2, mChar ':', mDigits 2, mChar ':', mDigits 2]

/-- `(\d{2}:\d{2}:\d{2}\.\d{3})` -/
def patTimeMs : Matcher := mCat
  [mDigits 2, mChar ':', mDigits 2, mChar ':', mDigits 2, mChar '.', mDigits 3]

/-- `(\d{2}:\d{2}:\d{2})` -/
def patTime : Matcher := mCat
  [mDigits 2, mChar ':', mDigits 2, mChar ':', mDigits 2]

/-- `(\d{2}/\d{2}/\d{4}\s+\d{2}:\d{2}:\d{2})` -/
def patSlash : Matcher := mCat
  [mDigits 2, mChar '/', mDigits 2, mChar '/', mDigits 4, mMany1 isWsC,
   mDigits 2, mChar ':', mDigits 2, mChar ':', mDigits 2]

/-- `(\d{10})` -/
def patUnix : Matcher := mDigits 10

/-- Leftmost match of a scanner: try each start position left to right. -/
def findFirst (m : Matcher) : List Char → Option (List Char)
  | [] =>
    match m [] with
    | some (mt, _) => some mt
    | none => none
  | c :: cs =>
    match m (c :: cs) with
    | some (mt, _) => some mt
    | none => findFirst m cs

/-! ## The chrono formats paired with the patterns -/

/-- `%.3f`: if a `.` follows, exactly three digits; else nothing. -/
def fracOpt3 (cs : List Char) : Option (List Char) :=
  match cs with
  | '.' :: r =>
    match r with
    | a :: b :: c :: r' => if isDigitC a && isDigitC b && isDigitC c then some r' else none
    | _ => none
  | _ => some cs

/-- `"%Y-%m-%dT%H:%M:%S%.3fZ"` — note the `Z` is a literal and must be
present in the input for the parse to succeed. -/
def parseIsoZ (cs : List Char) : Option Int := do
  let (y, r1) ← numFieldYear cs
  let r2 ← expectChar '-' r1
  let (mo, r3) ← numField 2 r2
  let r4 ← expectChar '-' r3
  let (d, r5) ← numField 2 r4
  let r6 ← expectChar 'T' r5
  let (h, r7) ← numField 2 r6
  let r8 ← expectChar ':' r7
  let (mi, r9) ← numField 2 r8
  let r10 ← expectChar ':' r9
  let (s, r11) ← numField 2 r10
  let r12 ← fracOpt3 r11
  let r13 ← expectChar 'Z' r12
  if r13.isEmpty then
    toNaiveDateTime ⟨some y, some mo, some d, some h, some mi, some s⟩
  else none

/-- `"%Y-%m-%d %H:%M:%S%.3f"`. -/
def parseStdMs (cs : List Char) : Option Int := do
  let (ymd, r1) ← readYmd cs
  let (hms, r2) ← readHms (skipWs r1)
  let r3 ← fracOpt3 r2
  if r3.isEmpty then
    toNaiveDateTime ⟨some ymd.1, some ymd.2.1, some ymd.2.2,
      some hms.1, some hms.2.1, some hms.2.2⟩
  else none

/-- `%b`: a short month name, case-insensitively. -/
def monthAbbrev3 (a b c : Char) : Option Nat :=
  let s := [a.toLower, b.toLower, c.toLower]
  if s = ['j', 'a', 'n'] then some 1
  else if s = ['f', 'e', 'b'] then some 2
  else if s = ['m', 'a', 'r'] then some 3
  else if s = ['a', 'p', 'r'] then some 4
  else if s = ['m', 'a', 'y'] then some 5
  else if s = ['j', 'u', 'n'] then some 6
  else if s = ['j', 'u', 'l'] then some 7
  else if s = ['a', 'u', 'g'] then some 8
  else if s = ['s', 'e', 'p'] then some 9
  else if s = ['o', 'c', 't'] then some 10
  else if s = ['n', 'o', 'v'] then some 11
  else if s = ['d', 'e', 'c'] then some 12
  else none

/-- The syslog branch: the code renders `"{current_year} {capture}"` and
parses it with `"%Y %b %d %H:%M:%S"`; the year round-trips to the current
year, so the capture is parsed directly with that year. -/
def parseSyslog (nowYear : Int) (cs : List Char) : Option Int :=
  match cs with
  | a :: b :: c :: r1 => do
    let mo ← monthAbbrev3 a b c
    let (d, r2) ← numField 2 (skipWs r1)
    let (hms, r3) ← readHms (skipWs r2)
    if r3.isEmpty then
      toNaiveDateTime ⟨some nowYear, some mo, some d,
        some hms.1, some hms.2.1, some hms.2.2⟩
    else none
  | _ => none

/-- `"%H:%M:%S%.3f"` parsed as a `NaiveDateTime`: no date fields are set,
so completion always fails — the two time-only patterns can never
produce a timestamp. -/
def parseTimeOnlyMs (cs : List Char) : Option Int := do
  let (hms, r1) ← readHms cs
  let r2 ← fracOpt3 r1
  if r2.isEmpty then
    toNaiveDateTime ⟨none, none, none, some hms.1, some hms.2.1, some hms.2.2⟩
  else none

/-- `"%H:%M:%S"` parsed as a `NaiveDateTime` (always fails, as above). -/
def parseTimeOnly (cs : List Char) : Option Int := do
  let (hms, r1) ← readHms cs
  if r1.isEmpty then
    toNaiveDateTime ⟨none, none, none, some hms.1, some hms.2.1, some hms.2.2⟩
  else none

/-- `"%m/%d/%Y %H:%M:%S"`. -/
def parseSlash (cs : List Char) : Option Int := do
  let (mo, r1) ← numField 2 cs
  let r2 ← expectChar '/' r1
  let (d, r3) ← numField 2 r2
  let r4 ← expectChar '/' r3
  let (y, r5) ← numFieldYear r4
  let (hms, r6) ← readHms (skipWs r5)
  if r6.isEmpty then
    toNaiveDateTime ⟨some y, some mo, some d, some hms.1, some hms.2.1, some hms.2.2⟩
  else none

/-- The `"unix"` branch: `parse::<i64>()` on the ten captured digits, then
`DateTime::from_timestamp(n, 0).map(|dt| dt.naive_local())` — a ten-digit
value is always inside chrono's representable range, and the naive UTC
civil time of a UTC instant is the seconds value itself. -/
def parseUnix (cs : List Char) : Option Int :=
  if cs.length = 10 ∧ cs.all isDigitC then
    some ((cs.foldl (fun acc c => acc * 10 + (c.toNat - 48)) 0 : Nat) : Int)
  else none

/-- One pattern/format pair: leftmost regex match, then parse the capture. -/
def tryPat (m : Matcher) (p : List Char → Option Int) (cs : List Char) :
    Option (List Char × Int) :=
  (findFirst m cs).bind fun mt => (p mt).map fun dt => (mt, dt)

/-- The ordered pattern/format table of `extract_timestamp_from_log`
(`now` feeds the syslog branch's current year). -/
def patternCascade : List (Int → List Char → Option (List Char × Int)) :=
  [fun _ => tryPat patIso parseIsoZ,
   fun _ => tryPat patStdMs parseStdMs,
   fun _ => tryPat patStd fmtFullDT,
   fun now => tryPat patSyslog (parseSyslog (civilFromSecs now).1),
   fun _ => tryPat patTimeMs parseTimeOnlyMs,
   fun _ => tryPat patTime parseTimeOnly,
   fun _ => tryPat patSlash parseSlash,
   fun _ => tryPat patUnix parseUnix]

/-- First pattern that matches and parses wins: format the parsed instant
canonically and delete the matched substring (then trim); if every
pattern fails, return the line unchanged with no timestamp. -/
def runCascade (now : Int) (content : String) :
    List (Int → List Char → Option (List Char × Int)) → Option String × String
  | [] => (none, content)
  | t :: ts =>
    match t now content.toList with
    | some (mt, dt) =>
      (some (formatCanonical dt), ⟨trimChars (removeAll content.toList mt)⟩)
    | none => runCascade now content ts

/-- `LogsApp::extract_timestamp_from_log`. -/
def extract_timestamp_from_log (now : Int) (content : String) :
    Option String × String :=
  runCascade now content patternCascade

/-! ## The application state and engine operations -/

inductive FilterMode where
  | IncludeSelected
  | ExcludeSelected
deriving DecidableEq

inductive TimeUnit where
  | Minutes
  | Hours
  | Days
deriving DecidableEq

inductive PredefinedSpan where
  | Last15Minutes
  | Last30Minutes
  | Last1Hour
  | Last6Hours
  | Last24Hours
  | Last3Days
  | Last1Week
  | Last1Month
deriving DecidableEq

inductive TimeSpanMode where
  | Disabled
  | Predefined (span : PredefinedSpan)
  | Custom
  | Relative
deriving DecidableEq

/-- `PredefinedSpan::to_duration`, in seconds. -/
def PredefinedSpan.toDuration : PredefinedSpan → Int
  | .Last15Minutes => 15 * 60
  | .Last30Minutes => 30 * 60
  | .Last1Hour => 3600
  | .Last6Hours => 6 * 3600
  | .Last24Hours => 86400
  | .Last3Days => 3 * 86400
  | .Last1Week => 7 * 86400
  | .Last1Month => 30 * 86400

/-- `TimeUnit::to_duration(amount)`, in seconds. -/
def TimeUnit.toDuration : TimeUnit → Int → Int
  | .Minutes, amount => amount * 60
  | .Hours, amount => amount * 3600
  | .Days, amount => amount * 86400

structure LogEntry where
  timestamp : String
  content : String
deriving DecidableEq

/-- The fields of `LogsApp` the engine reads (UI-only fields dropped). -/
structure LogsApp where
  logs : List LogEntry
  selected_log_levels : List String
  filter_mode : FilterMode
  search_text : String
  time_span_mode : TimeSpanMode
  custom_from_year : Int
  custom_from_month : Nat
  custom_from_day : Nat
  custom_from_hour : Nat
  custom_from_minute : Nat
  custom_to_year : Int
  custom_to_month : Nat
  custom_to_day : Nat
  custom_to_hour : Nat
  custom_to_minute : Nat
  relative_amount : Int
  relative_unit : TimeUnit
deriving DecidableEq

/-- `LogsApp::get_time_range` (`Local::now()` passed explicitly). -/
def get_time_range (app : LogsApp) (now : Int) : Option (Int × Int) :=
  match app.time_span_mode with
  | .Disabled => none
  | .Predefined span => some (now - span.toDuration, now)
  | .Custom => do
    let df ← fromYmdOpt app.custom_from_year app.custom_from_month app.custom_from_day
    let tf ← fromHmsOpt app.custom_from_hour app.custom_from_minute 0
    let dt ← fromYmdOpt app.custom_to_year app.custom_to_month app.custom_to_day
    let tt ← fromHmsOpt app.custom_to_hour app.custom_to_minute 59
    pure (df * 86400 + (tf : Int), dt * 86400 + (tt : Int))
  | .Relative => some (now - app.relative_unit.toDuration app.relative_amount, now)

/-- The level predicate of `LogsApp::filtered_logs`. -/
def matchesLevel (app : LogsApp) (e : LogEntry) : Bool :=
  if app.selected_log_levels.isEmpty then true
  else
    let contentLower := lowerStr e.content
    let hit := app.selected_log_levels.any fun lv => strContains contentLower (lowerStr lv)
    match app.filter_mode with
    | .IncludeSelected => hit
    | .ExcludeSelected => !hit

/-- The search predicate of `LogsApp::filtered_logs`. -/
def matchesSearch (app : LogsApp) (e : LogEntry) : Bool :=
  if app.search_text.isEmpty then true
  else
    strContains (lowerStr e.content) (lowerStr app.search_text) ||
    strContains (lowerStr e.timestamp) (lowerStr app.search_text)

/-- The time predicate of `LogsApp::filtered_logs`. -/
def matchesTime (app : LogsApp) (now : Int) (e : LogEntry) : Bool :=
  match get_time_range app now with
  | some (fromTime, toTime) =>
    match parse_time_input e.timestamp with
    | some dt => decide (fromTime ≤ dt ∧ dt ≤ toTime)
    | none => true
  | none => true

/-- `LogsApp::filtered_logs`. -/
def filtered_logs (app : LogsApp) (now : Int) : List LogEntry :=
  app.logs.filter fun e => matchesLevel app e && matchesSearch app e && matchesTime app now e

/-- The entry `LogsApp::add_log_entry` stores for a received line:
extracted timestamp and cleaned content, or the canonically formatted
current wall-clock time and the unchanged line. -/
def storedEntry (now : Int) (content : String) : LogEntry :=
  let r := extract_timestamp_from_log now content
  { timestamp := r.1.getD (formatCanonical now), content := r.2 }

/-- `LogsApp::add_log_entry`: push the normalized entry, then evict the
oldest 1000-entry block when the buffer exceeds 10000. -/
def add_log_entry (app : LogsApp) (now : Int) (content : String) : LogsApp :=
  let logs' := app.logs ++ [storedEntry now content]
  { app with logs := if logs'.length > 10000 then logs'.drop 1000 else logs' }

/-- The default level set of `LogsApp::default` (as a list; the code uses
a `HashSet`, read only through emptiness and `any`). -/
def defaultLevels : List String :=
  ["trace", "debug", "info", "warn", "warning", "error", "err", "fatal",
   "critical", "crit"]

/-- The `LogsApp::default` state (the `Default` impl's `now`-seeded custom
fields are fixed arbitrarily; no claim reads them in the default state). -/
def baseApp : LogsApp where
  logs := []
  selected_log_levels := defaultLevels
  filter_mode := .IncludeSelected
  search_text := ""
  time_span_mode := .Disabled
  custom_from_year := 2025
  custom_from_month := 9
  custom_from_day := 15
  custom_from_hour := 0
  custom_from_minute := 0
  custom_to_year := 2025
  custom_to_month := 9
  custom_to_day := 15
  custom_to_hour := 23
  custom_to_minute := 59
  relative_amount := 1
  relative_unit := .Hours

/-! ## Claims about the buffer (C1, C2) -/

theorem suffix_append_compat {α : Type} {l₁ l₂ t : List α} (h : l₁ <:+ l₂) :
    l₁ ++ t <:+ l₂ ++ t := by
  obtain ⟨w, hw⟩ := h
  exact ⟨w, by rw [← List.append_assoc, hw]⟩

theorem pushEvict_step (logs : List LogEntry) (e : LogEntry) (h : logs.length ≤ 10000) :
    (if (logs ++ [e]).length > 10000 then (logs ++ [e]).drop 1000 else logs ++ [e]).length ≤ 10000 ∧
    (if (logs ++ [e]).length > 10000 then (logs ++ [e]).drop 1000 else logs ++ [e]) <:+ logs ++ [e] := by
  by_cases hc : (logs ++ [e]).length > 10000
  · rw [if_pos hc]
    refine ⟨?_, List.drop_suffix _ _⟩
    rw [List.length_drop]
    rw [List.length_append] at hc ⊢
    simp only [List.length_cons, List.length_nil] at hc ⊢
    omega
  · rw [if_neg hc]
    exact ⟨by omega, List.suffix_rfl⟩

theorem add_log_entry_logs (app : LogsApp) (now : Int) (content : String) :
    (add_log_entry app now content).logs =
      if (app.logs ++ [storedEntry now content]).length > 10000
      then (app.logs ++ [storedEntry now content]).drop 1000
      else app.logs ++ [storedEntry now content] := rfl

/-- Invariant of folded appends: length stays ≤ 10000 and the buffer is a
suffix of the full arrival sequence. -/
theorem add_fold_invariant (inputs : List (Int × String)) :
    ∀ app : LogsApp, app.logs.length ≤ 10000 →
    (inputs.foldl (fun a p => add_log_entry a p.1 p.2) app).logs.length ≤ 10000 ∧
    (inputs.foldl (fun a p => add_log_entry a p.1 p.2) app).logs <:+
      app.logs ++ inputs.map fun p => storedEntry p.1 p.2 := by
  induction inputs with
  | nil =>
    intro app h
    refine ⟨h, ?_⟩
    rw [List.foldl_nil, List.map_nil, List.append_nil]
  | cons p ps ih =>
    intro app h
    rw [List.foldl_cons]
    have hstep := pushEvict_step app.logs (storedEntry p.1 p.2) h
    rw [← add_log_entry_logs] at hstep
    obtain ⟨ih1, ih2⟩ := ih (add_log_entry app p.1 p.2) hstep.1
    refine ⟨ih1, ?_⟩
    have hsfx := suffix_append_compat (t := ps.map fun p => storedEntry p.1 p.2) hstep.2
    have hfin := ih2.trans hsfx
    simpa [List.append_assoc] using hfin

/-- C1: for every sequence of append operations starting from an empty
Log Buffer, the buffer length observed after any append (i.e. after any
prefix of the sequence) is at most 10000, and the retained entries are a
suffix of the arrival sequence, preserving arrival order under eviction. -/
theorem c1_buffer_bound_and_fifo (app : LogsApp) (inputs : List (Int × String)) (n : Nat) :
    ((inputs.take n).foldl (fun a p => add_log_entry a p.1 p.2) { app with logs := [] }).logs.length ≤ 10000 ∧
    ((inputs.take n).foldl (fun a p => add_log_entry a p.1 p.2) { app with logs := [] }).logs <:+
      (inputs.take n).map fun p => storedEntry p.1 p.2 := by
  have h := add_fold_invariant (inputs.take n) { app with logs := [] } (by simp)
  simpa using h

/-- C2: appending one entry to a buffer of exactly 10000 entries leaves
exactly 9001 entries: the 1000 oldest are evicted and the new entry is at
the end. -/
theorem c2_eviction (app : LogsApp) (now : Int) (content : String)
    (h : app.logs.length = 10000) :
    (add_log_entry app now content).logs.length = 9001 ∧
    (add_log_entry app now content).logs =
      app.logs.drop 1000 ++ [storedEntry now content] := by
  have hgt : (app.logs ++ [storedEntry now content]).length > 10000 := by
    simp only [List.length_append, List.length_cons, List.length_nil]
    omega
  rw [add_log_entry_logs, if_pos hgt]
  constructor
  · rw [List.length_drop]
    simp only [List.length_append, List.length_cons, List.length_nil]
    omega
  · exact List.drop_append_of_le_length (by omega)

/-- A 10000-entry buffer for the C2 witness. -/
def fullApp : LogsApp :=
  { baseApp with logs := List.replicate 10000 ⟨"2025-09-15 14:30:00", "INFO ok"⟩ }

theorem fullApp_length : fullApp.logs.length = 10000 := by
  have h : fullApp.logs = List.replicate 10000 ⟨"2025-09-15 14:30:00", "INFO ok"⟩ := rfl
  rw [h, List.length_replicate]

theorem c2_eviction_witness :
    (add_log_entry fullApp 0 "x").logs.length = 9001 ∧
    (add_log_entry fullApp 0 "x").logs =
      fullApp.logs.drop 1000 ++ [storedEntry 0 "x"] :=
  c2_eviction fullApp 0 "x" fullApp_length

/-! ## Claims about the filter engine (C6, C8) -/

def entryA : LogEntry := ⟨"2025-09-15 14:30:00", "ERROR disk full"⟩

def entryB : LogEntry := ⟨"2025-09-15 14:31:00", "INFO ok"⟩

/-- Two-entry buffer with `selectedLevels = {"error"}`, no time filter. -/
def appC6 (mode : FilterMode) (search : String) : LogsApp :=
  { baseApp with
    logs := [entryA, entryB]
    selected_log_levels := ["error"]
    filter_mode := mode
    search_text := search }

/-- C6: filter composition on the concrete buffer `{A, B}`: Include with
empty search yields `[A]`, Exclude yields `[B]`, Include+"disk" yields
`[A]`, Include+"network" yields `[]` (the three predicates are ANDed per
entry by `filtered_logs`). -/
theorem c6_filter_composition :
    filtered_logs (appC6 .IncludeSelected "") 0 = [entryA] ∧
    filtered_logs (appC6 .ExcludeSelected "") 0 = [entryB] ∧
    filtered_logs (appC6 .IncludeSelected "disk") 0 = [entryA] ∧
    filtered_logs (appC6 .IncludeSelected "network") 0 = [] := by
  decide

theorem matchesTime_of_none (app : LogsApp) (now : Int)
    (h : get_time_range app now = none) (e : LogEntry) :
    matchesTime app now e = true := by
  simp [matchesTime, h]

/-- C8: with a resolved time range, an entry whose timestamp string fails
to parse under every format of `parse_time_input` passes the time
predicate — unparsable timestamps are never hidden by a time filter. -/
theorem c8_unparsable_always_matches (app : LogsApp) (now f t : Int) (e : LogEntry)
    (hr : get_time_range app now = some (f, t))
    (hp : parse_time_input e.timestamp = none) :
    matchesTime app now e = true := by
  simp [matchesTime, hr, hp]

theorem c8_witness :
    matchesTime { baseApp with time_span_mode := .Predefined .Last15Minutes } 0
      ⟨"garbage", "x"⟩ = true :=
  c8_unparsable_always_matches _ 0 (0 - 900) 0 ⟨"garbage", "x"⟩ (by decide) (by decide)

/-! ## Claims about the extractor (C3, C4, C5) -/

/-- If every pattern of the cascade fails, the cascade returns the line
unchanged with no timestamp. -/
theorem runCascade_all_none (now : Int) (content : String) :
    ∀ pats, (∀ t ∈ pats, t now content.toList = none) →
    runCascade now content pats = (none, content) := by
  intro pats
  induction pats with
  | nil => intro _; rfl
  | cons t ts ih =>
    intro h
    have ht := h t (List.mem_cons_self t ts)
    simp only [runCascade, ht]
    exact ih fun t' ht' => h t' (List.mem_cons_of_mem _ ht')

/-- The entry `add_log_entry` just appended sits at the end of the buffer
(also after an eviction). -/
theorem add_log_entry_getLast (app : LogsApp) (now : Int) (content : String) :
    (add_log_entry app now content).logs.getLast? = some (storedEntry now content) := by
  rw [add_log_entry_logs]
  by_cases hc : (app.logs ++ [storedEntry now content]).length > 10000
  · rw [if_pos hc]
    have hlen : 1000 ≤ app.logs.length := by
      simp only [List.length_append, List.length_cons, List.length_nil] at hc
      omega
    rw [List.drop_append_of_le_length (by omega), List.getLast?_concat]
  · rw [if_neg hc, List.getLast?_concat]

/-- C5: when no pattern of the cascade matches-and-parses, `extract`
returns the unchanged line with no timestamp, and `add_log_entry` stores
the entry with the canonically formatted wall-clock time instead — the
stored entry always carries a concrete timestamp string. -/
theorem c5_fallback_wall_clock (app : LogsApp) (now : Int) (content : String)
    (hall : ∀ t ∈ patternCascade, t now content.toList = none) :
    extract_timestamp_from_log now content = (none, content) ∧
    (add_log_entry app now content).logs.getLast? =
      some ⟨formatCanonical now, content⟩ := by
  have hrc : extract_timestamp_from_log now content = (none, content) :=
    runCascade_all_none now content patternCascade hall
  refine ⟨hrc, ?_⟩
  have hse : storedEntry now content = ⟨formatCanonical now, content⟩ := by
    simp only [storedEntry, hrc, Option.getD_none]
  rw [← hse]
  exact add_log_entry_getLast app now content

theorem c5_fallback_wall_clock_witness :
    extract_timestamp_from_log 0 "hello world" = (none, "hello world") ∧
    (add_log_entry baseApp 0 "hello world").logs.getLast? =
      some ⟨formatCanonical 0, "hello world"⟩ := by
  refine c5_fallback_wall_clock baseApp 0 "hello world" ?_
  intro t ht
  simp only [patternCascade, List.mem_cons, List.not_mem_nil, or_false] at ht
  rcases ht with rfl | rfl | rfl | rfl | rfl | rfl | rfl | rfl <;> decide

/-- C4: when the ISO pattern yields nothing but the space-separated
datetime pattern matches and parses, the cascade's result is that
pattern's result — the timestamp carries the date captured from the line
and no later pattern (in particular neither time-only pattern) is
consulted. -/
theorem c4_datetime_precedence (now : Int) (content : String) (mt : List Char) (dt : Int)
    (h1 : tryPat patIso parseIsoZ content.toList = none)
    (h2 : tryPat patStdMs parseStdMs content.toList = some (mt, dt)) :
    extract_timestamp_from_log now content =
      (some (formatCanonical dt), ⟨trimChars (removeAll content.toList mt)⟩) := by
  simp only [extract_timestamp_from_log, patternCascade, runCascade, h1, h2]

theorem c4_datetime_precedence_witness :
    extract_timestamp_from_log 0 "2025-09-15 14:30:00" =
      (some "2025-09-15 14:30:00", "") := by
  have h := c4_datetime_precedence 0 "2025-09-15 14:30:00"
    "2025-09-15 14:30:00".toList (mkDT 2025 9 15 14 30 0) (by decide) (by decide)
  rw [h]
  decide

/-- C3 counterexample: the spec's ISO example *without* the trailing `Z`
is not resolved by the ISO pattern (the paired format ends in a literal
`Z`), and in fact extracts no timestamp at all: the claimed result is
wrong at this input. -/
theorem c3_counterexample :
    extract_timestamp_from_log 1757946600 "2025-09-15T14:30:00 connection reset" =
      (none, "2025-09-15T14:30:00 connection reset") ∧
    extract_timestamp_from_log 1757946600 "2025-09-15T14:30:00 connection reset" ≠
      (some "2025-09-15 14:30:00", "connection reset") := by
  constructor
  · decide
  · decide

/-- C3 (amended): whenever the ISO-8601 pattern matches and its paired
format parses — which requires the trailing `Z` — the cascade resolves
via this first pattern: the canonical rendering of the parsed instant is
the timestamp and the matched substring is removed (and the result
trimmed) to form the content. -/
theorem c3_iso_resolution (now : Int) (content : String) (mt : List Char) (dt : Int)
    (h : tryPat patIso parseIsoZ content.toList = some (mt, dt)) :
    extract_timestamp_from_log now content =
      (some (formatCanonical dt), ⟨trimChars (removeAll content.toList mt)⟩) := by
  simp only [extract_timestamp_from_log, patternCascade, runCascade, h]

theorem c3_iso_resolution_witness :
    extract_timestamp_from_log 0 "2025-09-15T14:30:00Z connection reset" =
      (some "2025-09-15 14:30:00", "connection reset") := by
  have h := c3_iso_resolution 0 "2025-09-15T14:30:00Z connection reset"
    "2025-09-15T14:30:00Z".toList (mkDT 2025 9 15 14 30 0) (by decide)
  rw [h]
  decide

/-! ## Claims about the time range resolver (C7, C9) -/

theorem fromHmsOpt_some (h mi s v : Nat) (hv : fromHmsOpt h mi s = some v) :
    v = h * 3600 + mi * 60 + s := by
  unfold fromHmsOpt at hv
  split at hv
  · injection hv with h'
    omega
  · exact Option.noConfusion hv

/-- C7: with a Custom time span, `get_time_range` builds `from` from the
five from-fields with the second fixed at 0 and `to` from the five
to-fields with the second fixed at 59; whenever any field combination is
rejected by the calendar (`from_ymd_opt`/`from_hms_opt` return `None`),
it resolves to no range at all, and the time predicate then accepts every
entry — time filtering is silently disabled, no error is surfaced. -/
theorem c7_custom_resolution (app : LogsApp) (now : Int)
    (hmode : app.time_span_mode = .Custom) :
    (∀ df tf dt2 tt,
      fromYmdOpt app.custom_from_year app.custom_from_month app.custom_from_day = some df →
      fromHmsOpt app.custom_from_hour app.custom_from_minute 0 = some tf →
      fromYmdOpt app.custom_to_year app.custom_to_month app.custom_to_day = some dt2 →
      fromHmsOpt app.custom_to_hour app.custom_to_minute 59 = some tt →
      get_time_range app now = some (df * 86400 + (tf : Int), dt2 * 86400 + (tt : Int)) ∧
      tf = app.custom_from_hour * 3600 + app.custom_from_minute * 60 + 0 ∧
      tt = app.custom_to_hour * 3600 + app.custom_to_minute * 60 + 59) ∧
    ((fromYmdOpt app.custom_from_year app.custom_from_month app.custom_from_day = none ∨
      fromHmsOpt app.custom_from_hour app.custom_from_minute 0 = none ∨
      fromYmdOpt app.custom_to_year app.custom_to_month app.custom_to_day = none ∨
      fromHmsOpt app.custom_to_hour app.custom_to_minute 59 = none) →
      get_time_range app now = none ∧ ∀ e, matchesTime app now e = true) := by
  constructor
  · intro df tf dt2 tt h1 h2 h3 h4
    refine ⟨?_, fromHmsOpt_some _ _ _ _ h2, fromHmsOpt_some _ _ _ _ h4⟩
    simp [get_time_range, hmode, h1, h2, h3, h4]
  · intro hbad
    have hnone : get_time_range app now = none := by
      rcases hbad with h | h | h | h
      · simp [get_time_range, hmode, h]
      · simp [get_time_range, hmode, h]
      · simp [get_time_range, hmode, h]
      · simp [get_time_range, hmode, h]
    exact ⟨hnone, fun e => matchesTime_of_none app now hnone e⟩

/-- Custom range 2025-09-15 00:00 .. 2025-09-15 23:59 (valid). -/
def goodCustomApp : LogsApp := { baseApp with time_span_mode := .Custom }

/-- Custom range whose from-date is 2025-02-30 (invalid). -/
def badCustomApp : LogsApp :=
  { baseApp with
    time_span_mode := .Custom
    custom_from_month := 2
    custom_from_day := 30 }

theorem c7_custom_resolution_witness :
    (get_time_range goodCustomApp 0 =
      some (daysFromCivil 2025 9 15 * 86400 + ((0 : Nat) : Int),
            daysFromCivil 2025 9 15 * 86400 + ((86399 : Nat) : Int))) ∧
    get_time_range badCustomApp 0 = none ∧
    matchesTime badCustomApp 0 ⟨"2025-09-15 14:30:00", "x"⟩ = true := by
  have hgood := (c7_custom_resolution goodCustomApp 0 rfl).1
    (daysFromCivil 2025 9 15) 0 (daysFromCivil 2025 9 15) 86399
    (by decide) (by decide) (by decide) (by decide)
  have hbad := (c7_custom_resolution badCustomApp 0 rfl).2 (Or.inl (by decide))
  exact ⟨hgood.1, hbad.1, hbad.2 _⟩

/-- C9: with a Relative span, `get_time_range` yields the window
`(now - amount·unit, now)`, and for entries whose timestamp parses the
time predicate is the inclusive comparison against `[from, to]`; at
`Relative(1, hours)` an entry parsed to `now - 30 min` is accepted and
one parsed to `now - 2 h` is rejected. -/
theorem c9_relative_window (app : LogsApp) (now : Int)
    (hmode : app.time_span_mode = .Relative) (_hpos : 1 ≤ app.relative_amount) :
    get_time_range app now =
      some (now - app.relative_unit.toDuration app.relative_amount, now) ∧
    (∀ e dt f t, get_time_range app now = some (f, t) →
      parse_time_input e.timestamp = some dt →
      matchesTime app now e = decide (f ≤ dt ∧ dt ≤ t)) ∧
    (app.relative_unit = .Hours → app.relative_amount = 1 →
      ∀ e dt, parse_time_input e.timestamp = some dt →
        (dt = now - 1800 → matchesTime app now e = true) ∧
        (dt = now - 7200 → matchesTime app now e = false)) := by
  refine ⟨?_, ?_, ?_⟩
  · simp [get_time_range, hmode]
  · intro e dt f t hr hp
    simp [matchesTime, hr, hp]
  · intro hu ha e dt hp
    have hr : get_time_range app now = some (now - 3600, now) := by
      simp [get_time_range, hmode, hu, ha, TimeUnit.toDuration]
    constructor
    · intro hdt
      simp only [matchesTime, hr, hp, decide_eq_true_eq]
      omega
    · intro hdt
      simp only [matchesTime, hr, hp]
      rw [decide_eq_false_iff_not]
      omega

/-- Relative(1, hours) configuration for the C9 witness. -/
def appRel : LogsApp := { baseApp with time_span_mode := .Relative }

theorem c9_relative_window_witness :
    get_time_range appRel 1757946600 = some (1757946600 - 3600, 1757946600) ∧
    matchesTime appRel 1757946600 ⟨"2025-09-15 14:00:00", "a"⟩ = true ∧
    matchesTime appRel 1757946600 ⟨"2025-09-15 12:30:00", "b"⟩ = false := by
  have h := c9_relative_window appRel 1757946600 rfl (by decide)
  refine ⟨h.1, ?_, ?_⟩
  · exact (h.2.2 rfl rfl ⟨"2025-09-15 14:00:00", "a"⟩ 1757944800 (by decide)).1 (by decide)
  · exact (h.2.2 rfl rfl ⟨"2025-09-15 12:30:00", "b"⟩ 1757939400 (by decide)).2 (by decide)

/-! ## C10: every stored timestamp is canonical and re-parses

The formatted string's characters are pinned down, the chrono readers are
evaluated on that shape, and the completion succeeds by the calendar
validity theorems above. -/

theorem dc_digit (k : Nat) (h : k < 10) : isDigitC (Nat.digitChar k) = true := by
  interval_cases k <;> decide

theorem dc_val (k : Nat) (h : k < 10) : (Nat.digitChar k).toNat - 48 = k := by
  interval_cases k <;> decide

theorem dc_not_ws (k : Nat) (h : k < 10) : isWsC (Nat.digitChar k) = false := by
  interval_cases k <;> decide

theorem dc_ne_dash (k : Nat) (h : k < 10) : (Nat.digitChar k == '-') = false := by
  interval_cases k <;> decide

theorem dc_ne_plus (k : Nat) (h : k < 10) : (Nat.digitChar k == '+') = false := by
  interval_cases k <;> decide

theorem skipWs_cons_of_not_ws (c : Char) (r : List Char) (h : isWsC c = false) :
    skipWs (c :: r) = c :: r := by
  simp [skipWs, h]

theorem numFieldCore_two (c1 c2 : Char) (rest : List Char)
    (h1 : isDigitC c1 = true) (h2 : isDigitC c2 = true) :
    numFieldCore 2 (c1 :: c2 :: rest) =
      some ((c1.toNat - 48) * 10 + (c2.toNat - 48), rest) := by
  show (if isDigitC c1 then some (grabDigitsAux 1 (c1.toNat - 48) (c2 :: rest)) else none) = _
  rw [h1, if_pos rfl]
  show some (if isDigitC c2
    then grabDigitsAux 0 ((c1.toNat - 48) * 10 + (c2.toNat - 48)) rest
    else (c1.toNat - 48, c2 :: rest)) = _
  rw [h2, if_pos rfl]
  rfl

theorem numFieldCore_four (c1 c2 c3 c4 : Char) (rest : List Char)
    (h1 : isDigitC c1 = true) (h2 : isDigitC c2 = true)
    (h3 : isDigitC c3 = true) (h4 : isDigitC c4 = true) :
    numFieldCore 4 (c1 :: c2 :: c3 :: c4 :: rest) =
      some ((((c1.toNat - 48) * 10 + (c2.toNat - 48)) * 10 + (c3.toNat - 48)) * 10
        + (c4.toNat - 48), rest) := by
  show (if isDigitC c1 then some (grabDigitsAux 3 (c1.toNat - 48) (c2 :: c3 :: c4 :: rest)) else none) = _
  rw [h1, if_pos rfl]
  show some (if isDigitC c2
    then grabDigitsAux 2 ((c1.toNat - 48) * 10 + (c2.toNat - 48)) (c3 :: c4 :: rest)
    else (c1.toNat - 48, c2 :: c3 :: c4 :: rest)) = _
  rw [h2, if_pos rfl]
  show some (if isDigitC c3
    then grabDigitsAux 1 (((c1.toNat - 48) * 10 + (c2.toNat - 48)) * 10 + (c3.toNat - 48)) (c4 :: rest)
    else (((c1.toNat - 48) * 10 + (c2.toNat - 48)), c3 :: c4 :: rest)) = _
  rw [h3, if_pos rfl]
  show some (if isDigitC c4
    then grabDigitsAux 0 ((((c1.toNat - 48) * 10 + (c2.toNat - 48)) * 10 + (c3.toNat - 48)) * 10 + (c4.toNat - 48)) rest
    else ((((c1.toNat - 48) * 10 + (c2.toNat - 48)) * 10 + (c3.toNat - 48)), c4 :: rest)) = _
  rw [h4, if_pos rfl]
  rfl

theorem expectChar_cons (c : Char) (r : List Char) : expectChar c (c :: r) = some r := by
  simp [expectChar]

theorem pad4_eval (y : Nat) (hy : y < 10000) :
    pad4 (y : Int) = [Nat.digitChar (y / 1000), Nat.digitChar (y / 100 % 10),
      Nat.digitChar (y / 10 % 10), Nat.digitChar (y % 10)] := by
  unfold pad4
  rw [if_pos ⟨Int.natCast_nonneg y, by exact_mod_cast hy⟩]
  simp

theorem numFieldYear_cons (c : Char) (r cs : List Char) (hsk : skipWs cs = c :: r)
    (hd : (c == '-') = false) (hp : (c == '+') = false) :
    numFieldYear cs = (numFieldCore 4 (c :: r)).map fun p => ((p.1 : Int), p.2) := by
  unfold numFieldYear
  rw [hsk]
  simp [hd, hp]

def dv2 (a b : Char) : Nat := (a.toNat - 48) * 10 + (b.toNat - 48)

def dv4 (a b c d : Char) : Nat := (dv2 a b * 10 + (c.toNat - 48)) * 10 + (d.toNat - 48)

theorem digit_not_ws (c : Char) (h : isDigitC c = true) : isWsC c = false := by
  simp only [isDigitC, Bool.and_eq_true, decide_eq_true_eq] at h
  simp only [isWsC, Bool.or_eq_false_iff, decide_eq_false_iff_not]
  omega

theorem digit_ne_dash (c : Char) (h : isDigitC c = true) : (c == '-') = false := by
  cases hq : c == '-'
  · rfl
  · rw [beq_iff_eq] at hq
    subst hq
    exact absurd h (by decide)

theorem digit_ne_plus (c : Char) (h : isDigitC c = true) : (c == '+') = false := by
  cases hq : c == '+'
  · rfl
  · rw [beq_iff_eq] at hq
    subst hq
    exact absurd h (by decide)

theorem skipWs_digit (c : Char) (r : List Char) (h : isDigitC c = true) :
    skipWs (c :: r) = c :: r :=
  skipWs_cons_of_not_ws c r (digit_not_ws c h)

theorem numField_two_digits (c1 c2 : Char) (rest : List Char)
    (h1 : isDigitC c1 = true) (h2 : isDigitC c2 = true) :
    numField 2 (c1 :: c2 :: rest) = some (dv2 c1 c2, rest) := by
  unfold numField
  rw [skipWs_digit _ _ h1, numFieldCore_two _ _ _ h1 h2]
  rfl

theorem numFieldYear_four_digits (c1 c2 c3 c4 : Char) (rest : List Char)
    (h1 : isDigitC c1 = true) (h2 : isDigitC c2 = true)
    (h3 : isDigitC c3 = true) (h4 : isDigitC c4 = true) :
    numFieldYear (c1 :: c2 :: c3 :: c4 :: rest) =
      some (((dv4 c1 c2 c3 c4 : Nat) : Int), rest) := by
  rw [numFieldYear_cons c1 (c2 :: c3 :: c4 :: rest) _ (skipWs_digit _ _ h1)
    (digit_ne_dash _ h1) (digit_ne_plus _ h1)]
  rw [numFieldCore_four _ _ _ _ _ h1 h2 h3 h4]
  simp [dv4, dv2]

theorem readYmd_digits (a1 a2 a3 a4 b1 b2 c1 c2 : Char) (rest : List Char)
    (ha1 : isDigitC a1 = true) (ha2 : isDigitC a2 = true)
    (ha3 : isDigitC a3 = true) (ha4 : isDigitC a4 = true)
    (hb1 : isDigitC b1 = true) (hb2 : isDigitC b2 = true)
    (hc1 : isDigitC c1 = true) (hc2 : isDigitC c2 = true) :
    readYmd (a1 :: a2 :: a3 :: a4 :: '-' :: b1 :: b2 :: '-' :: c1 :: c2 :: rest) =
      some ((((dv4 a1 a2 a3 a4 : Nat) : Int), dv2 b1 b2, dv2 c1 c2), rest) := by
  unfold readYmd
  rw [numFieldYear_four_digits _ _ _ _ _ ha1 ha2 ha3 ha4]
  simp only [Option.bind_eq_bind, Option.some_bind]
  rw [expectChar_cons]
  simp only [Option.some_bind]
  rw [numField_two_digits _ _ _ hb1 hb2]
  simp only [Option.some_bind]
  rw [expectChar_cons]
  simp only [Option.some_bind]
  rw [numField_two_digits _ _ _ hc1 hc2]
  simp only [Option.some_bind]
  rfl

theorem readHms_digits (e1 e2 f1 f2 g1 g2 : Char) (rest : List Char)
    (he1 : isDigitC e1 = true) (he2 : isDigitC e2 = true)
    (hf1 : isDigitC f1 = true) (hf2 : isDigitC f2 = true)
    (hg1 : isDigitC g1 = true) (hg2 : isDigitC g2 = true) :
    readHms (e1 :: e2 :: ':' :: f1 :: f2 :: ':' :: g1 :: g2 :: rest) =
      some ((dv2 e1 e2, dv2 f1 f2, dv2 g1 g2), rest) := by
  unfold readHms
  rw [numField_two_digits _ _ _ he1 he2]
  simp only [Option.bind_eq_bind, Option.some_bind]
  rw [expectChar_cons]
  simp only [Option.some_bind]
  rw [numField_two_digits _ _ _ hf1 hf2]
  simp only [Option.some_bind]
  rw [expectChar_cons]
  simp only [Option.some_bind]
  rw [numField_two_digits _ _ _ hg1 hg2]
  simp only [Option.some_bind]
  rfl

/-- Seconds of 0000-01-01 00:00:00, the least instant whose year the
canonical four-digit `%Y` field can render and re-read. -/
def minSec : Int := -62167219200

/-- Seconds of 10000-01-01 00:00:00, the first instant past year 9999. -/
def maxSec : Int := 253402300800

theorem daysInMonth_le31 (y : Int) (m : Nat) : daysInMonth y m ≤ 31 := by
  unfold daysInMonth
  split <;> first | omega | (split <;> omega)

theorem toNaiveDateTime_some (y : Int) (mo d h mi s : Nat)
    (hv : validYmd y mo d = true) (hh : h ≤ 23) (hmi : mi ≤ 59) (hs : s ≤ 59) :
    toNaiveDateTime ⟨some y, some mo, some d, some h, some mi, some s⟩ =
      some (mkDT y mo d h mi s) := by
  unfold toNaiveDateTime
  simp only [Option.bind_eq_bind, Option.some_bind, Option.getD_some]
  rw [if_pos ⟨hv, hh, hmi, hs⟩]

/-- A successful completion whose year field lies in 0-9999 yields an
instant inside `[minSec, maxSec)`. -/
theorem toNaiveDateTime_bounds (p : ParsedF) (y dt : Int)
    (hy : p.year = some y) (h0 : 0 ≤ y) (h1 : y ≤ 9999)
    (h : toNaiveDateTime p = some dt) : minSec ≤ dt ∧ dt < maxSec := by
  unfold toNaiveDateTime at h
  rw [hy] at h
  simp only [Option.bind_eq_bind, Option.some_bind, Option.bind_eq_some] at h
  obtain ⟨mo, hmo, d, hd, hh, hhh, mi, hmi, h⟩ := h
  split at h
  · rename_i hcond
    obtain ⟨hv, hhb, hmib, hsb⟩ := hcond
    injection h with hdt
    subst hdt
    simp only [validYmd, Bool.and_eq_true, decide_eq_true_eq] at hv
    obtain ⟨⟨⟨⟨⟨_, _⟩, hm1⟩, hm2⟩, hd1⟩, hd2⟩ := hv
    have hd31 : d ≤ 31 := le_trans hd2 (daysInMonth_le31 _ _)
    obtain ⟨hb1, hb2⟩ := daysFromCivil_bounds y mo d h0 h1 hm1 hm2 hd1 hd31
    unfold mkDT minSec maxSec
    have hsod : (p.second.getD 0) ≤ 59 := hsb
    omega
  · exact absurd h (by simp)

theorem digit_val_le (c : Char) (h : isDigitC c = true) : c.toNat - 48 ≤ 9 := by
  simp only [isDigitC, Bool.and_eq_true, decide_eq_true_eq] at h
  omega

theorem dv4_lt (a b c d : Char) (ha : isDigitC a = true) (hb : isDigitC b = true)
    (hc : isDigitC c = true) (hd : isDigitC d = true) :
    dv4 a b c d ≤ 9999 := by
  have h1 := digit_val_le a ha
  have h2 := digit_val_le b hb
  have h3 := digit_val_le c hc
  have h4 := digit_val_le d hd
  unfold dv4 dv2
  omega

theorem dv2_pad (n : Nat) (h : n < 100) :
    dv2 (Nat.digitChar (n / 10)) (Nat.digitChar (n % 10)) = n := by
  unfold dv2
  rw [dc_val _ (by omega), dc_val _ (by omega)]
  omega

theorem dv4_pad (y : Nat) (h : y < 10000) :
    dv4 (Nat.digitChar (y / 1000)) (Nat.digitChar (y / 100 % 10))
      (Nat.digitChar (y / 10 % 10)) (Nat.digitChar (y % 10)) = y := by
  unfold dv4 dv2
  rw [dc_val _ (by omega), dc_val _ (by omega), dc_val _ (by omega), dc_val _ (by omega)]
  omega

theorem fmtFullDT_digits (a1 a2 a3 a4 b1 b2 c1 c2 e1 e2 f1 f2 g1 g2 : Char)
    (ha1 : isDigitC a1 = true) (ha2 : isDigitC a2 = true)
    (ha3 : isDigitC a3 = true) (ha4 : isDigitC a4 = true)
    (hb1 : isDigitC b1 = true) (hb2 : isDigitC b2 = true)
    (hc1 : isDigitC c1 = true) (hc2 : isDigitC c2 = true)
    (he1 : isDigitC e1 = true) (he2 : isDigitC e2 = true)
    (hf1 : isDigitC f1 = true) (hf2 : isDigitC f2 = true)
    (hg1 : isDigitC g1 = true) (hg2 : isDigitC g2 = true) :
    fmtFullDT (a1 :: a2 :: a3 :: a4 :: '-' :: b1 :: b2 :: '-' :: c1 :: c2 :: ' ' ::
        e1 :: e2 :: ':' :: f1 :: f2 :: ':' :: g1 :: g2 :: []) =
      toNaiveDateTime ⟨some ((dv4 a1 a2 a3 a4 : Nat) : Int), some (dv2 b1 b2),
        some (dv2 c1 c2), some (dv2 e1 e2), some (dv2 f1 f2), some (dv2 g1 g2)⟩ := by
  unfold fmtFullDT
  rw [readYmd_digits _ _ _ _ _ _ _ _ _ ha1 ha2 ha3 ha4 hb1 hb2 hc1 hc2]
  simp only [Option.bind_eq_bind, Option.some_bind]
  have hws : isWsC ' ' = true := by decide
  have hsw : skipWs (' ' :: e1 :: e2 :: ':' :: f1 :: f2 :: ':' :: g1 :: g2 :: []) =
      e1 :: e2 :: ':' :: f1 :: f2 :: ':' :: g1 :: g2 :: [] := by
    simp [skipWs, List.dropWhile, hws, digit_not_ws _ he1]
  rw [hsw, readHms_digits _ _ _ _ _ _ _ he1 he2 hf1 hf2 hg1 hg2]
  simp only [Option.some_bind]
  rfl

theorem trimChars_id (c d : Char) (mid : List Char)
    (hc : isWsC c = false) (hd : isWsC d = false) :
    trimChars (c :: (mid ++ [d])) = c :: (mid ++ [d]) := by
  have h1 : List.dropWhile isWsC (c :: (mid ++ [d])) = c :: (mid ++ [d]) := by
    rw [List.dropWhile_cons, hc]
    simp
  have hrev : (c :: (mid ++ [d])).reverse = d :: (mid.reverse ++ [c]) := by
    simp
  have h2 : List.dropWhile isWsC (d :: (mid.reverse ++ [c])) =
      d :: (mid.reverse ++ [c]) := by
    rw [List.dropWhile_cons, hd]
    simp
  unfold trimChars
  rw [h1, hrev, h2]
  simp

theorem canonicalList (y : Nat) (mo d h mi s : Nat) (hy : y < 10000) :
    pad4 (y : Int) ++ '-' :: pad2 mo ++ '-' :: pad2 d ++
      ' ' :: pad2 h ++ ':' :: pad2 mi ++ ':' :: pad2 s =
    Nat.digitChar (y / 1000) :: Nat.digitChar (y / 100 % 10) ::
    Nat.digitChar (y / 10 % 10) :: Nat.digitChar (y % 10) :: '-' ::
    Nat.digitChar (mo / 10) :: Nat.digitChar (mo % 10) :: '-' ::
    Nat.digitChar (d / 10) :: Nat.digitChar (d % 10) :: ' ' ::
    Nat.digitChar (h / 10) :: Nat.digitChar (h % 10) :: ':' ::
    Nat.digitChar (mi / 10) :: Nat.digitChar (mi % 10) :: ':' ::
    Nat.digitChar (s / 10) :: Nat.digitChar (s % 10) :: [] := by
  rw [pad4_eval y hy]
  simp [pad2]

theorem mSeq_eq_some (a b : Matcher) (cs m r : List Char)
    (h : mSeq a b cs = some (m, r)) :
    ∃ m1 r1 m2, a cs = some (m1, r1) ∧ b r1 = some (m2, r) ∧ m = m1 ++ m2 := by
  unfold mSeq at h
  rcases ha : a cs with _ | ⟨m1, r1⟩
  · rw [ha] at h
    simp at h
  · rw [ha] at h
    dsimp only at h
    rcases hb : b r1 with _ | ⟨m2, r2⟩
    · rw [hb] at h
      simp at h
    · rw [hb] at h
      dsimp only at h
      injection h with h'
      injection h' with h1 h2
      exact ⟨m1, r1, m2, rfl, by rw [hb, h2], h1.symm⟩

theorem mChar_eq_some (c : Char) (cs m r : List Char)
    (h : mChar c cs = some (m, r)) : m = [c] ∧ cs = c :: r := by
  unfold mChar at h
  rcases cs with _ | ⟨x, t⟩
  · exact absurd h (by simp)
  · simp only at h
    rcases hx : x == c with _ | _
    · rw [hx] at h
      exact absurd h (by simp)
    · rw [hx] at h
      rw [beq_iff_eq] at hx
      injection h with h'
      injection h' with h1 h2
      subst hx h2
      exact ⟨h1.symm, rfl⟩

theorem mClass_eq_some (p : Char → Bool) (cs m r : List Char)
    (h : mClass p cs = some (m, r)) :
    ∃ c, p c = true ∧ m = [c] ∧ cs = c :: r := by
  unfold mClass at h
  rcases cs with _ | ⟨x, t⟩
  · exact absurd h (by simp)
  · simp only at h
    rcases hx : p x with _ | _
    · rw [hx] at h
      exact absurd h (by simp)
    · rw [hx] at h
      injection h with h'
      injection h' with h1 h2
      subst h2
      exact ⟨x, hx, h1.symm, rfl⟩

theorem mOk_eq_some (cs m r : List Char) (h : mOk cs = some (m, r)) :
    m = [] ∧ r = cs := by
  unfold mOk at h
  injection h with h'
  injection h' with h1 h2
  exact ⟨h1.symm, h2.symm⟩

theorem mDigits_inv (n : Nat) (cs m r : List Char)
    (h : mDigits n cs = some (m, r)) :
    m.length = n ∧ (∀ c ∈ m, isDigitC c = true) ∧ cs = m ++ r := by
  induction n generalizing cs m r with
  | zero =>
    obtain ⟨h1, h2⟩ := mOk_eq_some cs m r h
    subst h1 h2
    simp
  | succ k ih =>
    obtain ⟨m1, r1, m2, h1, h2, h3⟩ := mSeq_eq_some _ _ _ _ _ h
    obtain ⟨c, hc, hm1, hcs⟩ := mClass_eq_some _ _ _ _ h1
    obtain ⟨hl, hd, hr⟩ := ih r1 m2 r h2
    subst h3 hm1 hcs hr hl
    refine ⟨by simp, ?_, by simp⟩
    intro x hx
    simp only [List.cons_append, List.nil_append, List.mem_cons] at hx
    rcases hx with hx | hx
    · subst hx
      exact hc
    · exact hd x hx

theorem mCat_cons (x : Matcher) (xs : List Matcher) (cs m r : List Char)
    (h : mCat (x :: xs) cs = some (m, r)) :
    ∃ m1 r1 m2, x cs = some (m1, r1) ∧ mCat xs r1 = some (m2, r) ∧ m = m1 ++ m2 :=
  mSeq_eq_some x (mCat xs) cs m r h

theorem findFirst_inv (m : Matcher) (cs mt : List Char)
    (h : findFirst m cs = some mt) : ∃ s r, m s = some (mt, r) := by
  induction cs with
  | nil =>
    unfold findFirst at h
    rcases hm : m [] with _ | ⟨mt', r'⟩
    · rw [hm] at h
      exact absurd h (by simp)
    · rw [hm] at h
      injection h with h1
      subst h1
      exact ⟨[], r', hm⟩
  | cons c t ih =>
    unfold findFirst at h
    rcases hm : m (c :: t) with _ | ⟨mt', r'⟩
    · rw [hm] at h
      exact ih h
    · rw [hm] at h
      injection h with h1
      subst h1
      exact ⟨c :: t, r', hm⟩

theorem list_len2 (l : List Char) (h : l.length = 2) : ∃ a b, l = [a, b] := by
  rcases l with _ | ⟨a, _ | ⟨b, _ | _⟩⟩ <;> simp_all

theorem list_len4 (l : List Char) (h : l.length = 4) :
    ∃ a b c d, l = [a, b, c, d] := by
  rcases l with _ | ⟨a, _ | ⟨b, _ | ⟨c, _ | ⟨d, _ | _⟩⟩⟩⟩ <;> simp_all

theorem mCat_digits4_head (xs : List Matcher) (cs m r : List Char)
    (h : mCat (mDigits 4 :: xs) cs = some (m, r)) :
    ∃ c1 c2 c3 c4 mrest, m = c1 :: c2 :: c3 :: c4 :: mrest ∧
      isDigitC c1 = true ∧ isDigitC c2 = true ∧
      isDigitC c3 = true ∧ isDigitC c4 = true := by
  obtain ⟨m1, r1, m2, h1, _, h3⟩ := mCat_cons _ _ _ _ _ h
  obtain ⟨hl, hd, _⟩ := mDigits_inv 4 cs m1 r1 h1
  obtain ⟨c1, c2, c3, c4, hm1⟩ := list_len4 m1 hl
  subst hm1 h3
  exact ⟨c1, c2, c3, c4, m2, by simp,
    hd c1 (by simp), hd c2 (by simp), hd c3 (by simp), hd c4 (by simp)⟩

theorem patSlash_shape (cs m r : List Char) (h : patSlash cs = some (m, r)) :
    ∃ a1 a2 b1 b2 y1 y2 y3 y4 mrest,
      m = a1 :: a2 :: '/' :: b1 :: b2 :: '/' :: y1 :: y2 :: y3 :: y4 :: mrest ∧
      isDigitC a1 = true ∧ isDigitC a2 = true ∧
      isDigitC b1 = true ∧ isDigitC b2 = true ∧
      isDigitC y1 = true ∧ isDigitC y2 = true ∧
      isDigitC y3 = true ∧ isDigitC y4 = true := by
  unfold patSlash at h
  obtain ⟨m1, r1, m2, h1, h, hm⟩ := mCat_cons _ _ _ _ _ h
  obtain ⟨hl1, hd1, _⟩ := mDigits_inv 2 _ _ _ h1
  obtain ⟨a1, a2, hm1⟩ := list_len2 _ hl1
  obtain ⟨m3, r2, m4, h2, h, hm2⟩ := mCat_cons _ _ _ _ _ h
  obtain ⟨hm3, _⟩ := mChar_eq_some _ _ _ _ h2
  obtain ⟨m5, r3, m6, h3, h, hm4⟩ := mCat_cons _ _ _ _ _ h
  obtain ⟨hl2, hd2, _⟩ := mDigits_inv 2 _ _ _ h3
  obtain ⟨b1, b2, hm5⟩ := list_len2 _ hl2
  obtain ⟨m7, r4, m8, h4, h, hm6⟩ := mCat_cons _ _ _ _ _ h
  obtain ⟨hm7, _⟩ := mChar_eq_some _ _ _ _ h4
  obtain ⟨m9, r5, m10, h5, h, hm8⟩ := mCat_cons _ _ _ _ _ h
  obtain ⟨hl3, hd3, _⟩ := mDigits_inv 4 _ _ _ h5
  obtain ⟨y1, y2, y3, y4, hm9⟩ := list_len4 _ hl3
  subst hm hm1 hm2 hm3 hm4 hm5 hm6 hm7 hm8 hm9
  refine ⟨a1, a2, b1, b2, y1, y2, y3, y4, m10, by simp, ?_, ?_, ?_, ?_, ?_, ?_, ?_, ?_⟩
  · exact hd1 a1 (by simp)
  · exact hd1 a2 (by simp)
  · exact hd2 b1 (by simp)
  · exact hd2 b2 (by simp)
  · exact hd3 y1 (by simp)
  · exact hd3 y2 (by simp)
  · exact hd3 y3 (by simp)
  · exact hd3 y4 (by simp)

theorem readYmd_head4 (c1 c2 c3 c4 : Char) (rest : List Char)
    (y : Int) (mo d : Nat) (r : List Char)
    (h1 : isDigitC c1 = true) (h2 : isDigitC c2 = true)
    (h3 : isDigitC c3 = true) (h4 : isDigitC c4 = true)
    (h : readYmd (c1 :: c2 :: c3 :: c4 :: rest) = some ((y, mo, d), r)) :
    y = ((dv4 c1 c2 c3 c4 : Nat) : Int) := by
  unfold readYmd at h
  rw [numFieldYear_four_digits _ _ _ _ _ h1 h2 h3 h4] at h
  simp only [Option.bind_eq_bind, Option.some_bind, Option.bind_eq_some,
    Prod.exists, Option.pure_def, Option.some.injEq, Prod.mk.injEq] at h
  obtain ⟨r2, _, mo', r3, _, r4, _, d', r5, _, ⟨hy, _, _⟩, _⟩ := h
  exact hy.symm

theorem parseIsoZ_bound (c1 c2 c3 c4 : Char) (rest : List Char) (dt : Int)
    (h1 : isDigitC c1 = true) (h2 : isDigitC c2 = true)
    (h3 : isDigitC c3 = true) (h4 : isDigitC c4 = true)
    (h : parseIsoZ (c1 :: c2 :: c3 :: c4 :: rest) = some dt) :
    minSec ≤ dt ∧ dt < maxSec := by
  unfold parseIsoZ at h
  rw [numFieldYear_four_digits _ _ _ _ _ h1 h2 h3 h4] at h
  simp only [Option.bind_eq_bind, Option.some_bind, Option.bind_eq_some,
    Prod.exists] at h
  obtain ⟨r2, _, mo, r3, _, r4, _, d, r5, _, r6, _, hh, r7, _, r8, _,
    mi, r9, _, r10, _, s, r11, _, r12, _, r13, _, h⟩ := h
  split at h
  · refine toNaiveDateTime_bounds _ _ _ rfl (by positivity) ?_ h
    exact_mod_cast dv4_lt c1 c2 c3 c4 h1 h2 h3 h4
  · exact absurd h (by simp)

theorem fmtFullDT_bound (c1 c2 c3 c4 : Char) (rest : List Char) (dt : Int)
    (h1 : isDigitC c1 = true) (h2 : isDigitC c2 = true)
    (h3 : isDigitC c3 = true) (h4 : isDigitC c4 = true)
    (h : fmtFullDT (c1 :: c2 :: c3 :: c4 :: rest) = some dt) :
    minSec ≤ dt ∧ dt < maxSec := by
  unfold fmtFullDT at h
  simp only [Option.bind_eq_bind, Option.bind_eq_some, Prod.exists] at h
  obtain ⟨y, mo, d, r1, hread, hh, mm, ss, r2, _, h⟩ := h
  have hy := readYmd_head4 _ _ _ _ _ _ _ _ _ h1 h2 h3 h4 hread
  subst hy
  split at h
  · refine toNaiveDateTime_bounds _ _ _ rfl (by positivity) ?_ h
    exact_mod_cast dv4_lt c1 c2 c3 c4 h1 h2 h3 h4
  · exact absurd h (by simp)

theorem parseStdMs_bound (c1 c2 c3 c4 : Char) (rest : List Char) (dt : Int)
    (h1 : isDigitC c1 = true) (h2 : isDigitC c2 = true)
    (h3 : isDigitC c3 = true) (h4 : isDigitC c4 = true)
    (h : parseStdMs (c1 :: c2 :: c3 :: c4 :: rest) = some dt) :
    minSec ≤ dt ∧ dt < maxSec := by
  unfold parseStdMs at h
  simp only [Option.bind_eq_bind, Option.bind_eq_some, Prod.exists] at h
  obtain ⟨y, mo, d, r1, hread, hh, mm, ss, r2, _, r3, _, h⟩ := h
  have hy := readYmd_head4 _ _ _ _ _ _ _ _ _ h1 h2 h3 h4 hread
  subst hy
  split at h
  · refine toNaiveDateTime_bounds _ _ _ rfl (by positivity) ?_ h
    exact_mod_cast dv4_lt c1 c2 c3 c4 h1 h2 h3 h4
  · exact absurd h (by simp)

theorem parseSlash_bound (a1 a2 b1 b2 y1 y2 y3 y4 : Char) (rest : List Char)
    (dt : Int)
    (ha1 : isDigitC a1 = true) (ha2 : isDigitC a2 = true)
    (hb1 : isDigitC b1 = true) (hb2 : isDigitC b2 = true)
    (hy1 : isDigitC y1 = true) (hy2 : isDigitC y2 = true)
    (hy3 : isDigitC y3 = true) (hy4 : isDigitC y4 = true)
    (h : parseSlash (a1 :: a2 :: '/' :: b1 :: b2 :: '/' ::
      y1 :: y2 :: y3 :: y4 :: rest) = some dt) :
    minSec ≤ dt ∧ dt < maxSec := by
  unfold parseSlash at h
  rw [numField_two_digits _ _ _ ha1 ha2] at h
  simp only [Option.bind_eq_bind, Option.some_bind] at h
  rw [expectChar_cons] at h
  simp only [Option.some_bind] at h
  rw [numField_two_digits _ _ _ hb1 hb2] at h
  simp only [Option.some_bind] at h
  rw [expectChar_cons] at h
  simp only [Option.some_bind] at h
  rw [numFieldYear_four_digits _ _ _ _ _ hy1 hy2 hy3 hy4] at h
  simp only [Option.some_bind, Option.bind_eq_some, Prod.exists] at h
  obtain ⟨hh, mm, ss, r6, _, h⟩ := h
  split at h
  · refine toNaiveDateTime_bounds _ _ _ rfl (by positivity) ?_ h
    exact_mod_cast dv4_lt y1 y2 y3 y4 hy1 hy2 hy3 hy4
  · exact absurd h (by simp)

theorem parseSyslog_bound (nowYear : Int) (cs : List Char) (dt : Int)
    (h0 : 0 ≤ nowYear) (h1 : nowYear ≤ 9999)
    (h : parseSyslog nowYear cs = some dt) : minSec ≤ dt ∧ dt < maxSec := by
  unfold parseSyslog at h
  rcases cs with _ | ⟨a, _ | ⟨b, _ | ⟨c, r1⟩⟩⟩
  · exact absurd h (by simp)
  · exact absurd h (by simp)
  · exact absurd h (by simp)
  · simp only [Option.bind_eq_bind, Option.bind_eq_some, Prod.exists] at h
    obtain ⟨mo, _, d, r2, _, hh, mm, ss, r3, _, h⟩ := h
    split at h
    · exact toNaiveDateTime_bounds _ _ _ rfl h0 h1 h
    · exact absurd h (by simp)

theorem parseTimeOnlyMs_none (cs : List Char) : parseTimeOnlyMs cs = none := by
  unfold parseTimeOnlyMs
  rcases hr : readHms cs with _ | ⟨hms, r1⟩
  · rfl
  · simp only [Option.bind_eq_bind, Option.some_bind]
    rcases hf : fracOpt3 r1 with _ | r2
    · rfl
    · simp only [Option.some_bind]
      split <;> rfl

theorem parseTimeOnly_none (cs : List Char) : parseTimeOnly cs = none := by
  unfold parseTimeOnly
  rcases hr : readHms cs with _ | ⟨hms, r1⟩
  · rfl
  · simp only [Option.bind_eq_bind, Option.some_bind]
    split <;> rfl

theorem foldl_digits_bound (cs : List Char) (acc : Nat)
    (h : ∀ c ∈ cs, isDigitC c = true) :
    cs.foldl (fun a c => a * 10 + (c.toNat - 48)) acc < (acc + 1) * 10 ^ cs.length := by
  induction cs generalizing acc with
  | nil =>
    simp only [List.foldl_nil, List.length_nil, pow_zero, mul_one]
    exact Nat.lt_succ_self acc
  | cons c t ih =>
    simp only [List.foldl_cons, List.length_cons]
    have hc := digit_val_le c (h c (by simp))
    have hstep := ih (acc * 10 + (c.toNat - 48)) (fun x hx => h x (by simp [hx]))
    calc t.foldl (fun a c => a * 10 + (c.toNat - 48)) (acc * 10 + (c.toNat - 48)) <
        (acc * 10 + (c.toNat - 48) + 1) * 10 ^ t.length := hstep
      _ ≤ ((acc + 1) * 10) * 10 ^ t.length := Nat.mul_le_mul_right _ (by omega)
      _ = (acc + 1) * 10 ^ (t.length + 1) := by ring

theorem parseUnix_bound (cs : List Char) (dt : Int)
    (h : parseUnix cs = some dt) : minSec ≤ dt ∧ dt < maxSec := by
  unfold parseUnix at h
  split at h
  · rename_i hcond
    obtain ⟨hlen, hall⟩ := hcond
    injection h with h'
    subst h'
    simp only [List.all_eq_true, decide_eq_true_eq] at hall
    have hb := foldl_digits_bound cs 0 fun c hc => hall c hc
    rw [hlen] at hb
    have hb2 : cs.foldl (fun a c => a * 10 + (c.toNat - 48)) 0 < 10000000000 := by
      have hq : (0 + 1) * 10 ^ 10 = 10000000000 := by norm_num
      omega
    have hb3 : ((cs.foldl (fun a c => a * 10 + (c.toNat - 48)) 0 : Nat) : Int) <
        10000000000 := by
      exact_mod_cast hb2
    have hnn : (0 : Int) ≤ (cs.foldl (fun a c => a * 10 + (c.toNat - 48)) 0 : Nat) :=
      Int.natCast_nonneg _
    unfold minSec maxSec
    constructor <;> omega
  · exact absurd h (by simp)

theorem tryPat_inv (m : Matcher) (p : List Char → Option Int) (cs mt : List Char)
    (dt : Int) (h : tryPat m p cs = some (mt, dt)) :
    findFirst m cs = some mt ∧ p mt = some dt := by
  unfold tryPat at h
  simp only [Option.bind_eq_some, Option.map_eq_some', Prod.mk.injEq] at h
  obtain ⟨mt', hf, dt', hp, heq1, heq2⟩ := h
  subst heq1 heq2
  exact ⟨hf, hp⟩

/-- Every timestamp the extractor cascade emits is the canonical
rendering of an instant inside `[minSec, maxSec)` (the syslog branch
needs the current year in 0-9999). -/
theorem extract_ts_bound (now : Int) (content : String) (ts : String)
    (hy0 : 0 ≤ (civilFromSecs now).1) (hy1 : (civilFromSecs now).1 ≤ 9999)
    (h : (extract_timestamp_from_log now content).1 = some ts) :
    ∃ dt, minSec ≤ dt ∧ dt < maxSec ∧ ts = formatCanonical dt := by
  unfold extract_timestamp_from_log patternCascade at h
  simp only [runCascade] at h
  rcases h1 : tryPat patIso parseIsoZ content.toList with _ | ⟨mt1, dt1⟩
  case some =>
    rw [h1] at h
    dsimp only at h
    obtain ⟨hf, hp⟩ := tryPat_inv _ _ _ _ _ h1
    obtain ⟨s, r, hm⟩ := findFirst_inv _ _ _ hf
    unfold patIso at hm
    obtain ⟨c1, c2, c3, c4, mrest, hmt, hd1, hd2, hd3, hd4⟩ :=
      mCat_digits4_head _ _ _ _ hm
    subst hmt
    obtain ⟨hb1, hb2⟩ := parseIsoZ_bound _ _ _ _ _ _ hd1 hd2 hd3 hd4 hp
    injection h with h'
    exact ⟨dt1, hb1, hb2, h'.symm⟩
  case none =>
  rw [h1] at h
  dsimp only at h
  rcases h2 : tryPat patStdMs parseStdMs content.toList with _ | ⟨mt2, dt2⟩
  case some =>
    rw [h2] at h
    dsimp only at h
    obtain ⟨hf, hp⟩ := tryPat_inv _ _ _ _ _ h2
    obtain ⟨s, r, hm⟩ := findFirst_inv _ _ _ hf
    unfold patStdMs at hm
    obtain ⟨c1, c2, c3, c4, mrest, hmt, hd1, hd2, hd3, hd4⟩ :=
      mCat_digits4_head _ _ _ _ hm
    subst hmt
    obtain ⟨hb1, hb2⟩ := parseStdMs_bound _ _ _ _ _ _ hd1 hd2 hd3 hd4 hp
    injection h with h'
    exact ⟨dt2, hb1, hb2, h'.symm⟩
  case none =>
  rw [h2] at h
  dsimp only at h
  rcases h3 : tryPat patStd fmtFullDT content.toList with _ | ⟨mt3, dt3⟩
  case some =>
    rw [h3] at h
    dsimp only at h
    obtain ⟨hf, hp⟩ := tryPat_inv _ _ _ _ _ h3
    obtain ⟨s, r, hm⟩ := findFirst_inv _ _ _ hf
    unfold patStd at hm
    obtain ⟨c1, c2, c3, c4, mrest, hmt, hd1, hd2, hd3, hd4⟩ :=
      mCat_digits4_head _ _ _ _ hm
    subst hmt
    obtain ⟨hb1, hb2⟩ := fmtFullDT_bound _ _ _ _ _ _ hd1 hd2 hd3 hd4 hp
    injection h with h'
    exact ⟨dt3, hb1, hb2, h'.symm⟩
  case none =>
  rw [h3] at h
  dsimp only at h
  rcases h4 : tryPat patSyslog (parseSyslog (civilFromSecs now).1) content.toList
    with _ | ⟨mt4, dt4⟩
  case some =>
    rw [h4] at h
    dsimp only at h
    obtain ⟨hf, hp⟩ := tryPat_inv _ _ _ _ _ h4
    obtain ⟨hb1, hb2⟩ := parseSyslog_bound _ _ _ hy0 hy1 hp
    injection h with h'
    exact ⟨dt4, hb1, hb2, h'.symm⟩
  case none =>
  rw [h4] at h
  dsimp only at h
  rcases h5 : tryPat patTimeMs parseTimeOnlyMs content.toList with _ | ⟨mt5, dt5⟩
  case some =>
    obtain ⟨hf, hp⟩ := tryPat_inv _ _ _ _ _ h5
    rw [parseTimeOnlyMs_none] at hp
    exact absurd hp (by simp)
  case none =>
  rw [h5] at h
  dsimp only at h
  rcases h6 : tryPat patTime parseTimeOnly content.toList with _ | ⟨mt6, dt6⟩
  case some =>
    obtain ⟨hf, hp⟩ := tryPat_inv _ _ _ _ _ h6
    rw [parseTimeOnly_none] at hp
    exact absurd hp (by simp)
  case none =>
  rw [h6] at h
  dsimp only at h
  rcases h7 : tryPat patSlash parseSlash content.toList with _ | ⟨mt7, dt7⟩
  case some =>
    rw [h7] at h
    dsimp only at h
    obtain ⟨hf, hp⟩ := tryPat_inv _ _ _ _ _ h7
    obtain ⟨s, r, hm⟩ := findFirst_inv _ _ _ hf
    obtain ⟨a1, a2, b1, b2, y1, y2, y3, y4, mrest, hmt,
      ha1, ha2, hbb1, hbb2, hq1, hq2, hq3, hq4⟩ := patSlash_shape _ _ _ hm
    subst hmt
    obtain ⟨hb1, hb2⟩ :=
      parseSlash_bound _ _ _ _ _ _ _ _ _ _ ha1 ha2 hbb1 hbb2 hq1 hq2 hq3 hq4 hp
    injection h with h'
    exact ⟨dt7, hb1, hb2, h'.symm⟩
  case none =>
  rw [h7] at h
  dsimp only at h
  rcases h8 : tryPat patUnix parseUnix content.toList with _ | ⟨mt8, dt8⟩
  case some =>
    rw [h8] at h
    dsimp only at h
    obtain ⟨hf, hp⟩ := tryPat_inv _ _ _ _ _ h8
    obtain ⟨hb1, hb2⟩ := parseUnix_bound _ _ hp
    injection h with h'
    exact ⟨dt8, hb1, hb2, h'.symm⟩
  case none =>
  rw [h8] at h
  dsimp only at h
  exact absurd h (by simp)

/-- The canonical rendering of an instant with year 0-9999 re-parses
under the first format of `parse_time_input`. -/
theorem formatCanonical_parses (t : Int)
    (hy0 : 0 ≤ (civilFromSecs t).1) (hy1 : (civilFromSecs t).1 ≤ 9999)
    (hv : validYmd (civilFromSecs t).1 (civilFromSecs t).2.1
      (civilFromSecs t).2.2.1 = true)
    (hmo : (civilFromSecs t).2.1 ≤ 12) (hd : (civilFromSecs t).2.2.1 ≤ 31) :
    parse_time_input (formatCanonical t) =
      some (mkDT (civilFromSecs t).1 (civilFromSecs t).2.1 (civilFromSecs t).2.2.1
        (civilFromSecs t).2.2.2.1 (civilFromSecs t).2.2.2.2.1
        (civilFromSecs t).2.2.2.2.2) := by
  rcases hc : civilFromSecs t with ⟨y, mo, d, hh, mi, s⟩
  rw [hc] at hy0 hy1 hv hmo hd
  simp only at hy0 hy1 hv hmo hd ⊢
  have hcc := hc
  simp only [civilFromSecs, Prod.mk.injEq] at hcc
  obtain ⟨hcy, hcmo, hcd, hch, hcmi, hcs⟩ := hcc
  have e1 : 0 ≤ t % 86400 := Int.emod_nonneg t (by norm_num)
  have e2 : t % 86400 < 86400 := Int.emod_lt_of_pos t (by norm_num)
  have hh23 : hh ≤ 23 := by omega
  have hmi59 : mi ≤ 59 := by omega
  have hs59 : s ≤ 59 := by omega
  have hfmt : formatCanonical t =
      ⟨pad4 y ++ '-' :: pad2 mo ++ '-' :: pad2 d ++
        ' ' :: pad2 hh ++ ':' :: pad2 mi ++ ':' :: pad2 s⟩ := by
    unfold formatCanonical
    rw [hc]
  have hyy : ((y.toNat : Nat) : Int) = y := Int.toNat_of_nonneg hy0
  have hyN : y.toNat ≤ 9999 := by omega
  have hlist : pad4 y ++ '-' :: pad2 mo ++ '-' :: pad2 d ++
      ' ' :: pad2 hh ++ ':' :: pad2 mi ++ ':' :: pad2 s =
      Nat.digitChar (y.toNat / 1000) :: Nat.digitChar (y.toNat / 100 % 10) ::
      Nat.digitChar (y.toNat / 10 % 10) :: Nat.digitChar (y.toNat % 10) :: '-' ::
      Nat.digitChar (mo / 10) :: Nat.digitChar (mo % 10) :: '-' ::
      Nat.digitChar (d / 10) :: Nat.digitChar (d % 10) :: ' ' ::
      Nat.digitChar (hh / 10) :: Nat.digitChar (hh % 10) :: ':' ::
      Nat.digitChar (mi / 10) :: Nat.digitChar (mi % 10) :: ':' ::
      Nat.digitChar (s / 10) :: Nat.digitChar (s % 10) :: [] := by
    rw [← hyy]
    exact canonicalList y.toNat mo d hh mi s (by omega)
  rw [hfmt]
  unfold parse_time_input
  have hTL : (⟨pad4 y ++ '-' :: pad2 mo ++ '-' :: pad2 d ++
      ' ' :: pad2 hh ++ ':' :: pad2 mi ++ ':' :: pad2 s⟩ : String).toList =
      pad4 y ++ '-' :: pad2 mo ++ '-' :: pad2 d ++
      ' ' :: pad2 hh ++ ':' :: pad2 mi ++ ':' :: pad2 s := rfl
  rw [hTL, hlist]
  have htrim : trimChars
      (Nat.digitChar (y.toNat / 1000) :: Nat.digitChar (y.toNat / 100 % 10) ::
      Nat.digitChar (y.toNat / 10 % 10) :: Nat.digitChar (y.toNat % 10) :: '-' ::
      Nat.digitChar (mo / 10) :: Nat.digitChar (mo % 10) :: '-' ::
      Nat.digitChar (d / 10) :: Nat.digitChar (d % 10) :: ' ' ::
      Nat.digitChar (hh / 10) :: Nat.digitChar (hh % 10) :: ':' ::
      Nat.digitChar (mi / 10) :: Nat.digitChar (mi % 10) :: ':' ::
      Nat.digitChar (s / 10) :: Nat.digitChar (s % 10) :: []) =
      Nat.digitChar (y.toNat / 1000) :: Nat.digitChar (y.toNat / 100 % 10) ::
      Nat.digitChar (y.toNat / 10 % 10) :: Nat.digitChar (y.toNat % 10) :: '-' ::
      Nat.digitChar (mo / 10) :: Nat.digitChar (mo % 10) :: '-' ::
      Nat.digitChar (d / 10) :: Nat.digitChar (d % 10) :: ' ' ::
      Nat.digitChar (hh / 10) :: Nat.digitChar (hh % 10) :: ':' ::
      Nat.digitChar (mi / 10) :: Nat.digitChar (mi % 10) :: ':' ::
      Nat.digitChar (s / 10) :: Nat.digitChar (s % 10) :: [] :=
    trimChars_id (Nat.digitChar (y.toNat / 1000)) (Nat.digitChar (s % 10))
      [Nat.digitChar (y.toNat / 100 % 10), Nat.digitChar (y.toNat / 10 % 10),
       Nat.digitChar (y.toNat % 10), '-', Nat.digitChar (mo / 10),
       Nat.digitChar (mo % 10), '-', Nat.digitChar (d / 10),
       Nat.digitChar (d % 10), ' ', Nat.digitChar (hh / 10),
       Nat.digitChar (hh % 10), ':', Nat.digitChar (mi / 10),
       Nat.digitChar (mi % 10), ':', Nat.digitChar (s / 10)]
      (dc_not_ws (y.toNat / 1000) (by omega))
      (dc_not_ws (s % 10) (by omega))
  rw [htrim]
  rw [if_neg (by simp)]
  rw [fmtFullDT_digits _ _ _ _ _ _ _ _ _ _ _ _ _ _
    (dc_digit (y.toNat / 1000) (by omega)) (dc_digit (y.toNat / 100 % 10) (by omega))
    (dc_digit (y.toNat / 10 % 10) (by omega)) (dc_digit (y.toNat % 10) (by omega))
    (dc_digit (mo / 10) (by omega)) (dc_digit (mo % 10) (by omega))
    (dc_digit (d / 10) (by omega)) (dc_digit (d % 10) (by omega))
    (dc_digit (hh / 10) (by omega)) (dc_digit (hh % 10) (by omega))
    (dc_digit (mi / 10) (by omega)) (dc_digit (mi % 10) (by omega))
    (dc_digit (s / 10) (by omega)) (dc_digit (s % 10) (by omega))]
  rw [dv4_pad y.toNat (by omega), dv2_pad mo (by omega), dv2_pad d (by omega),
    dv2_pad hh (by omega), dv2_pad mi (by omega), dv2_pad s (by omega)]
  rw [hyy]
  rw [toNaiveDateTime_some y mo d hh mi s hv hh23 hmi59 hs59]

/-- Field facts of `civilFromSecs` on an instant inside `[minSec, maxSec)`:
the year is 0-9999 and the date is a valid calendar date. -/
theorem nowYear_facts (t : Int) (hlo : minSec ≤ t) (hhi : t < maxSec) :
    0 ≤ (civilFromSecs t).1 ∧ (civilFromSecs t).1 ≤ 9999 ∧
    validYmd (civilFromSecs t).1 (civilFromSecs t).2.1 (civilFromSecs t).2.2.1 = true ∧
    (civilFromSecs t).2.1 ≤ 12 ∧ (civilFromSecs t).2.2.1 ≤ 31 := by
  have hz1 : -719528 ≤ t / 86400 := by
    unfold minSec at hlo
    omega
  have hz2 : t / 86400 ≤ 2932896 := by
    unfold maxSec at hhi
    omega
  obtain ⟨hy0, hy1⟩ := civilFromDays_year (t / 86400) hz1 hz2
  obtain ⟨hm1, hm2, hd1, hd2⟩ := civilFromDays_valid (t / 86400)
  have hc1 : (civilFromSecs t).1 = (civilFromDays (t / 86400)).1 := rfl
  have hc2 : (civilFromSecs t).2.1 = (civilFromDays (t / 86400)).2.1 := rfl
  have hc3 : (civilFromSecs t).2.2.1 = (civilFromDays (t / 86400)).2.2 := rfl
  rw [hc1, hc2, hc3]
  have hd31 : (civilFromDays (t / 86400)).2.2 ≤ 31 :=
    le_trans hd2 (daysInMonth_le31 _ _)
  refine ⟨hy0, hy1, ?_, hm2, hd31⟩
  simp only [validYmd, Bool.and_eq_true, decide_eq_true_eq]
  refine ⟨⟨⟨⟨⟨?_, ?_⟩, hm1⟩, hm2⟩, hd1⟩, hd2⟩
  · unfold minYear
    omega
  · unfold maxYear
    omega

/-- C10: as long as the wall clock reads an instant of years 0-9999,
every entry stored by `add_log_entry` carries a timestamp in the
canonical `%Y-%m-%d %H:%M:%S` form - the canonical rendering of some
in-range instant, whether extracted or substituted as the wall-clock
fallback - and that string parses under `parse_time_input` (its first
format succeeds), so the time predicate's unparsable-timestamp branch is
never taken for such entries. -/
theorem c10_canonical_timestamp (now : Int) (content : String)
    (hlo : minSec ≤ now) (hhi : now < maxSec) :
    (∃ dt, minSec ≤ dt ∧ dt < maxSec ∧
      (storedEntry now content).timestamp = formatCanonical dt) ∧
    (parse_time_input (storedEntry now content).timestamp).isSome = true := by
  obtain ⟨hy0, hy1, _, _, _⟩ := nowYear_facts now hlo hhi
  have hts : (storedEntry now content).timestamp =
      (extract_timestamp_from_log now content).1.getD (formatCanonical now) := rfl
  rcases hx : (extract_timestamp_from_log now content).1 with _ | ts
  · have heq : (storedEntry now content).timestamp = formatCanonical now := by
      rw [hts, hx]
      rfl
    refine ⟨⟨now, hlo, hhi, heq⟩, ?_⟩
    rw [heq]
    obtain ⟨a0, a1, av, amo, ad⟩ := nowYear_facts now hlo hhi
    rw [formatCanonical_parses now a0 a1 av amo ad]
    rfl
  · obtain ⟨dt, b1, b2, hts2⟩ := extract_ts_bound now content ts hy0 hy1 hx
    have heq : (storedEntry now content).timestamp = formatCanonical dt := by
      rw [hts, hx, Option.getD_some, hts2]
    refine ⟨⟨dt, b1, b2, heq⟩, ?_⟩
    rw [heq]
    obtain ⟨a0, a1, av, amo, ad⟩ := nowYear_facts dt b1 b2
    rw [formatCanonical_parses dt a0 a1 av amo ad]
    rfl

/-- Witness: at the concrete instant 2025-09-15 14:30:00 UTC the stored
entry for a pattern-free line has a parseable canonical timestamp. -/
theorem c10_canonical_timestamp_witness :
    (minSec ≤ (1757946600 : Int) ∧ (1757946600 : Int) < maxSec) ∧
    (parse_time_input (storedEntry 1757946600 "hello").timestamp).isSome = true :=
  ⟨⟨by decide, by decide⟩,
    (c10_canonical_timestamp 1757946600 "hello" (by decide) (by decide)).2⟩
